import Mathlib

/-!
Verification development for `namespacer.py` (cpp-namespacer).

The Python program is a lazy generator pipeline: `iter_lines` yields raw
lines while mirroring them into `out_buf` (the append of a yielded line
happens when the generator is *resumed*, i.e. on the next pull), a chain of
filter generators reduces the raw lines to logical statements, and
`process` is the decision engine consuming the statements.

We embed this as a pull-based interpreter over an explicit state record
`St`.  Each Python generator becomes a pull function `Nat → St → PRes`
(the `Nat` is fuel for its internal loops; every loop iteration consumes
at least one raw input line, so any fuel exceeding the input length
suffices).  The one-line-pending behaviour of `iter_lines` (a yielded line
is appended to `out_buf` only when the generator is resumed) is modelled
by the `pending` field, resolved at the start of the next pull.

Instrumentation (ghost data, not present in the Python code, never read by
the model itself):
* `out_buf` holds `Frag` values tagging each fragment as `orig` (appended
  by `iter_lines` from the input) or `synth` (appended by the engine);
  the Python `out_buf` is `List.map Frag.text out_buf`.
* `trace` records, in consumption order, every input line together with
  whether it was kept (appended to `out_buf`) or dropped (stripped
  would-marker, or a line eaten by the `drop_lines` mechanism).
* `guardEver` records whether `include_guard` was ever set to `True`.
* `consume_if` additionally returns the list of classified statements.

Python `StopIteration`-in-generator (a `RuntimeError` under PEP 479), the
unguarded `next` in `consume_if`, and the `AttributeError` on an
`#include` without a space are modelled as `crash` outcomes.
-/

/-- Python `str` whitespace for `strip()` and the regex class `\s`. -/
def isPyWs (c : Char) : Bool :=
  c = ' ' || c = '\t' || c = '\n' || c = '\r' || c = '\x0b' || c = '\x0c'

/-- Python `str.strip()` on a character list. -/
def pyStripL (l : List Char) : List Char :=
  ((l.dropWhile isPyWs).reverse.dropWhile isPyWs).reverse

/-- Python `str.strip()`. -/
def pyStrip (s : String) : String :=
  String.mk (pyStripL s.toList)

/-- `s.startswith pat` via character lists. -/
def strStarts (s pat : String) : Bool :=
  pat.toList.isPrefixOf s.toList

/-- Whether the string ends with a backslash (Python `l.endswith("\\")`). -/
def endsWithBackslash (s : String) : Bool :=
  s.toList.getLast? = some '\\'

/-- Python `l[:-1]`. -/
def dropLastChar (s : String) : String :=
  String.mk s.toList.dropLast

/-- Python `l[2:]`. -/
def dropTwoChars (s : String) : String :=
  String.mk (s.toList.drop 2)

/-- Python `s.rstrip("\n")`. -/
def rstripNl (s : String) : String :=
  String.mk (s.toList.reverse.dropWhile (fun c => c = '\n')).reverse

/-- Substring containment (Python `needle in hay`), by recursion on the hay. -/
def containsSubL : List Char → List Char → Bool
  | _, [] => true
  | [], _ :: _ => false
  | c :: hs, needle => needle.isPrefixOf (c :: hs) || containsSubL hs needle

/-- Substring containment on strings. -/
def containsSub (hay needle : String) : Bool :=
  containsSubL hay.toList needle.toList

/-- The suffix after the first occurrence of the block-comment closer
`*/` (Python `l[l.index("*/") + 2:]`), `none` when there is none. -/
def afterCommentClose : List Char → Option (List Char)
  | '*' :: '/' :: r => some r
  | _ :: r => afterCommentClose r
  | [] => none

/-- After a leading `#`, the rest of the line with `\s*` skipped; `none`
when the line does not start with `#`.  This is the common prefix of all
the directive regexes `^#\s*...` used in the source. -/
def afterHash (s : String) : Option (List Char) :=
  match s.toList with
  | '#' :: r => some (r.dropWhile isPyWs)
  | _ => none

/-- `re.match("^#\s*if", l)` as a Boolean. -/
def re_if (s : String) : Bool :=
  match afterHash s with
  | some r => "if".toList.isPrefixOf r
  | none => false

/-- `re.match("^#\s*endif", l)` as a Boolean. -/
def re_endif (s : String) : Bool :=
  match afterHash s with
  | some r => "endif".toList.isPrefixOf r
  | none => false

/-- `re.match("^#\s*include", l)` as a Boolean. -/
def re_include (s : String) : Bool :=
  match afterHash s with
  | some r => "include".toList.isPrefixOf r
  | none => false

/-- `re.match("^#\s*(elif|else|define|undef|error|pragma|warning)", l)`:
the preprocessor-noise directives dropped by `filter_preprocessor`. -/
def re_noise (s : String) : Bool :=
  match afterHash s with
  | some r =>
      "elif".toList.isPrefixOf r || "else".toList.isPrefixOf r ||
      "define".toList.isPrefixOf r || "undef".toList.isPrefixOf r ||
      "error".toList.isPrefixOf r || "pragma".toList.isPrefixOf r ||
      "warning".toList.isPrefixOf r
  | none => false

/-- Characters of the regex class `[A-Za-z0-9_]`. -/
def isWordChar (c : Char) : Bool :=
  ('A' ≤ c && c ≤ 'Z') || ('a' ≤ c && c ≤ 'z') || ('0' ≤ c && c ≤ '9') || c = '_'

/-- `re.match("^#\s*ifndef\s+([A-Za-z0-9_]+)", l)`: returns the captured
guard macro name. -/
def re_ifndef (s : String) : Option String :=
  match afterHash s with
  | some r =>
      if "ifndef".toList.isPrefixOf r then
        let r1 := r.drop 6
        let ws := r1.takeWhile isPyWs
        if ws.isEmpty then none
        else
          let r2 := r1.dropWhile isPyWs
          let nm := r2.takeWhile isWordChar
          if nm.isEmpty then none else some (String.mk nm)
      else none
  | none => false |> fun _ => none

/-- `re.match("^#\s*define\s+" + name, l)` as a Boolean (the name is used
as a prefix; the regex is not anchored at the end). -/
def re_define (nm : String) (s : String) : Bool :=
  match afterHash s with
  | some r =>
      if "define".toList.isPrefixOf r then
        let r1 := r.drop 6
        let ws := r1.takeWhile isPyWs
        if ws.isEmpty then false
        else nm.toList.isPrefixOf (r1.dropWhile isPyWs)
      else false
  | none => false

/-- `re.match("^#\s*include (.*)", line).group(1)`: the text after the
literal space following `include`; `none` when that regex does not match
(in which case the Python code crashes with `AttributeError`). -/
def re_include_arg (s : String) : Option String :=
  match afterHash s with
  | some r =>
      if "include".toList.isPrefixOf r then
        match r.drop 7 with
        | ' ' :: rest => some (String.mk rest)
        | _ => none
      else none
  | none => none

/-- `re.match("^\s*class\s*([^\s]+)\s*;\s*$", line)`: returns the captured
class name of a forward declaration.  The backtracking regex is equivalent
to: after optional whitespace and the literal `class` and optional
whitespace, strip trailing whitespace, require a final `;`, strip
whitespace before it; the remainder is the group and must be a nonempty
run of non-whitespace characters. -/
def re_class_predec (s : String) : Option String :=
  let t := s.toList.dropWhile isPyWs
  if "class".toList.isPrefixOf t then
    let r := (t.drop 5).dropWhile isPyWs
    let rev := r.reverse.dropWhile isPyWs
    match rev with
    | ';' :: r3 =>
        let g := (r3.dropWhile isPyWs).reverse
        if g.isEmpty then none
        else if g.all (fun c => !isPyWs c) then some (String.mk g) else none
    | _ => none
  else none

/-- A fragment of the output buffer: an original input line mirrored by
`iter_lines`, or a synthetic fragment appended by the decision engine.
The Python `out_buf` is the list of the fragments' texts. -/
inductive Frag
  | orig (s : String)
  | synth (s : String)
deriving DecidableEq, Repr

/-- The raw text of a fragment. -/
def Frag.text : Frag → String
  | .orig s => s
  | .synth s => s

/-- The texts of the original-line fragments of a buffer, in order. -/
def origTexts (buf : List Frag) : List String :=
  buf.filterMap fun f => match f with | .orig s => some s | .synth _ => none

/-- The texts of the synthetic fragments of a buffer, in order. -/
def synthTexts (buf : List Frag) : List String :=
  buf.filterMap fun f => match f with | .synth s => some s | .orig _ => none

/-- The lines of a consumption trace that were kept (mirrored to the
output buffer). -/
def keptTexts (tr : List (Bool × String)) : List String :=
  tr.filterMap fun p => if p.1 then some p.2 else none

/-- `keptTexts` as original-line fragments. -/
def keptFrags (tr : List (Bool × String)) : List Frag :=
  tr.filterMap fun p => if p.1 then some (Frag.orig p.2) else none

/-- State of `filter_include_guard`: `normal`, or — after a broken guard
was diagnosed — a queue of lines still to yield before passing everything
through unprocessed (`yield from iter`). -/
inductive FigMode
  | normal
  | broken (queued : List String)
deriving DecidableEq, Repr

/-- The mutable state of one `Namespacer` object, plus its immutable
configuration and the ghost instrumentation.  Field names follow the
Python attributes. -/
structure St where
  /-- remaining raw input lines (the unconsumed tail of `self.lines`) -/
  input : List String
  /-- line yielded by `iter_lines` but not yet mirrored to `out_buf` -/
  pending : Option String := none
  /-- `self.line_nr` (Python initialises it to `-1`) -/
  line_nr : Int := -1
  /-- the 1-based number `enumerate` will assign to the next line -/
  nextNr : Nat := 1
  /-- `self.full_line` -/
  full_line : String := ""
  /-- `self.out_buf`, with provenance tags -/
  out_buf : List Frag := []
  /-- `self.msgs` -/
  msgs : List String := []
  /-- `self.include_guard` -/
  include_guard : Bool := false
  /-- `self.namespace_active`: `none`, or the (line text, line number)
  that triggered opening -/
  namespace_active : Option (String × Int) := none
  /-- `self.nesting_depth` -/
  nesting_depth : Nat := 0
  /-- `self.drop_lines` -/
  drop_lines : Nat := 0
  /-- `self.status` (set only by the permissive-mode error handler) -/
  status : Option String := none
  /-- resume state of `filter_include_guard` -/
  figMode : FigMode := .normal
  /-- ghost: consumption trace, `(kept?, line)` per consumed input line -/
  trace : List (Bool × String) := []
  /-- ghost: whether `include_guard` was ever set -/
  guardEver : Bool := false
  /-- configuration: `self.namespace` -/
  ns : String
  /-- configuration: whether the `--errors` permissive error handler is
  installed (`main`, lines 273-281) -/
  errorsMode : Bool
  /-- `self.lines` (kept for the final `out_buf == lines` comparison) -/
  origLines : List String
deriving Repr

/-- `"namespace %s {\n" % self.namespace` -/
def open_namespace (ns : String) : String :=
  "namespace " ++ ns ++ " \x7b\n"

/-- `"} // end namespace %s\n" % self.namespace` -/
def close_namespace (ns : String) : String :=
  "\x7d // end namespace " ++ ns ++ "\n"

/-- `"// namespace %s {\n" % self.namespace` -/
def would_open_namespace (ns : String) : String :=
  "// namespace " ++ ns ++ " \x7b\n"

/-- `"// } // end namespace %s\n" % self.namespace` -/
def would_close_namespace (ns : String) : String :=
  "// \x7d // end namespace " ++ ns ++ "\n"

/-- Resuming `iter_lines` after a yield: the pending line is dropped when
`drop_lines > 0`, otherwise appended to `out_buf` (source lines 58-61). -/
def resolvePending (st : St) : St :=
  match st.pending with
  | none => st
  | some p =>
      if st.drop_lines > 0 then
        { st with pending := none, drop_lines := st.drop_lines - 1,
                  trace := st.trace ++ [(false, p)] }
      else
        { st with pending := none,
                  out_buf := st.out_buf ++ [Frag.orig p],
                  trace := st.trace ++ [(true, p)] }

/-- The loop of `iter_lines` (source lines 52-61): advance over the input,
skipping lines equal to the would-open/would-close markers, and yield the
next line (which becomes `pending`). -/
def iterGo : List String → St → Option String × St
  | [], st => (none, { st with input := [] })
  | l :: rest, st =>
      let st1 : St :=
        { st with input := rest, line_nr := (st.nextNr : Int),
                  nextNr := st.nextNr + 1, full_line := l }
      if l = would_open_namespace st.ns || l = would_close_namespace st.ns then
        iterGo rest { st1 with trace := st1.trace ++ [(false, l)] }
      else
        (some l, { st1 with pending := some l })

/-- One pull from the `iter_lines` generator: first resume (resolving the
pending line), then yield the next non-excluded line. -/
def iter_lines (st : St) : Option String × St :=
  iterGo st.input (resolvePending st)

/-- Result of pulling one item from a generator in the pipeline. -/
inductive CrashK
  | runtimeError
  | stopIteration
  | attributeError
deriving DecidableEq, Repr

/-- Pull result: an item (or clean exhaustion), a crash, or fuel
exhaustion of the model (never reached with fuel exceeding the input
length). -/
inductive PRes
  | ok (l : Option String) (st : St)
  | crash (k : CrashK) (st : St)
  | fuelOut (st : St)
deriving Repr

/-- A pull-based source of lines/statements (a generator in the chain). -/
abbrev Src := Nat → St → PRes

/-- `iter_lines` as a pipeline source. -/
def iterSrc : Src := fun _ st =>
  match iter_lines st with
  | (l, st') => .ok l st'

/-- Continuation joining of `filter_empty_or_comment` (source lines
68-69): while the line ends with a backslash, join with the next raw
line.  `next(iter)` on an exhausted source raises `StopIteration` inside
a generator, i.e. `RuntimeError`. -/
def fecJoin (src : Src) : Nat → String → St → PRes
  | 0, _, st => .fuelOut st
  | fuel + 1, l, st =>
      if endsWithBackslash l then
        match src (fuel + 1) st with
        | .ok (some nx) st' =>
            fecJoin src fuel (pyStrip (dropLastChar l) ++ pyStrip nx) st'
        | .ok none st' => .crash .runtimeError st'
        | .crash k st' => .crash k st'
        | .fuelOut st' => .fuelOut st'
      else .ok (some l) st

/-- The loop of `filter_empty_or_comment` (source lines 63-70): strip each
line, drop it when empty or a `//` comment, else join continuations and
yield. -/
def fecGo (src : Src) : Nat → St → PRes
  | 0, st => .fuelOut st
  | fuel + 1, st =>
      match src (fuel + 1) st with
      | .ok (some l) st' =>
          let ls := pyStrip l
          if ls = "" || strStarts ls "//" then fecGo src fuel st'
          else fecJoin src (fuel + 1) ls st'
      | .ok none st' => .ok none st'
      | .crash k st' => .crash k st'
      | .fuelOut st' => .fuelOut st'

/-- `filter_empty_or_comment` as a source transformer. -/
def filter_empty_or_comment (src : Src) : Src := fecGo src

/-- The inner scan of `filter_comment_block` (source lines 76-84): look
for `*/`; on the line containing it, yield the stripped remainder; pull
further lines otherwise.  The pull in the `except ValueError` branch is
unguarded, so exhaustion there is a `RuntimeError`; the pull after the
yield is guarded (`except StopIteration: return`), which in this model is
the clean exhaustion of the next `filter_comment_block` pull. -/
def fcbScan (src : Src) : Nat → String → St → PRes
  | 0, _, st => .fuelOut st
  | fuel + 1, l, st =>
      match afterCommentClose l.toList with
      | some rest => .ok (some (pyStrip (String.mk rest))) st
      | none =>
          match src (fuel + 1) st with
          | .ok (some l2) st' => fcbScan src fuel l2 st'
          | .ok none st' => .crash .runtimeError st'
          | .crash k st' => .crash k st'
          | .fuelOut st' => .fuelOut st'

/-- Handling of one line by `filter_comment_block` (source lines 72-86):
a line starting with `/*` enters the block scan (after dropping the
opener), anything else is yielded unchanged. -/
def fcbProcess (src : Src) (fuel : Nat) (l : String) (st : St) : PRes :=
  if strStarts l "/*" then fcbScan src fuel (dropTwoChars l) st
  else .ok (some l) st

/-- `filter_comment_block` as a source transformer.  Both yield sites of
the Python generator resume by pulling a fresh line and re-entering the
`while l.startswith("/*")` check, so the stage needs no resume state. -/
def filter_comment_block (src : Src) : Src := fun fuel st =>
  match src fuel st with
  | .ok (some l) st' => fcbProcess src fuel l st'
  | .ok none st' => .ok none st'
  | .crash k st' => .crash k st'
  | .fuelOut st' => .fuelOut st'

/-- `"broken include guard for '%s' in line %s:\n%s\n%s"` -/
def brokenGuardMsg (nm : String) (nr : Int) (l ld : String) : String :=
  "broken include guard for \x27" ++ nm ++ "\x27 in line " ++ toString (nr - 1)
    ++ ":\n" ++ l ++ "\n" ++ ld

/-- `filter_include_guard` as a source transformer (source lines 88-105).
While `include_guard` is not set, an `#ifndef NAME` line peeks the next
line: if it is a matching `#define`, both lines are dropped from the
statement stream, `include_guard` is set, and the line after the pair is
yielded; otherwise a broken-guard diagnostic is recorded, both lines are
yielded and the stage becomes a passthrough (`yield from iter`).  Both
peeks are unguarded `next` calls inside a generator, so exhaustion there
is a `RuntimeError`. -/
def filter_include_guard (src : Src) : Src := fun fuel st =>
  match st.figMode with
  | .broken (q :: qs) => .ok (some q) { st with figMode := .broken qs }
  | .broken [] => src fuel st
  | .normal =>
      match src fuel st with
      | .ok (some l) st' =>
          if st'.include_guard then .ok (some l) st'
          else
            match re_ifndef l with
            | none => .ok (some l) st'
            | some nm =>
                match src fuel st' with
                | .ok (some ld) st2 =>
                    if re_define nm ld then
                      let st3 : St :=
                        { st2 with include_guard := true, guardEver := true }
                      match src fuel st3 with
                      | .ok (some l2) st4 => .ok (some l2) st4
                      | .ok none st4 => .crash .runtimeError st4
                      | .crash k st4 => .crash k st4
                      | .fuelOut st4 => .fuelOut st4
                    else
                      .ok (some l)
                        { st2 with
                          msgs := st2.msgs ++ [brokenGuardMsg nm st2.line_nr l ld],
                          figMode := .broken [ld] }
                | .ok none st2 => .crash .runtimeError st2
                | .crash k st2 => .crash k st2
                | .fuelOut st2 => .fuelOut st2
      | .ok none st' => .ok none st'
      | .crash k st' => .crash k st'
      | .fuelOut st' => .fuelOut st'

/-- The loop of `filter_preprocessor` (source lines 107-110): drop every
noise directive line. -/
def fpGo (src : Src) : Nat → St → PRes
  | 0, st => .fuelOut st
  | fuel + 1, st =>
      match src (fuel + 1) st with
      | .ok (some l) st' =>
          if re_noise l then fpGo src fuel st' else .ok (some l) st'
      | .ok none st' => .ok none st'
      | .crash k st' => .crash k st'
      | .fuelOut st' => .fuelOut st'

/-- `filter_preprocessor` as a source transformer. -/
def filter_preprocessor (src : Src) : Src := fpGo src

/-- The statement pipeline of `process` (source lines 148-155):
`apply` applies the function list in `reversed` order, so the data flows
raw lines → `filter_empty_or_comment` → `filter_comment_block` →
`filter_empty_or_comment` → `filter_include_guard` →
`filter_preprocessor` → decision engine. -/
def code_lines : Src :=
  filter_preprocessor (filter_include_guard
    (filter_empty_or_comment (filter_comment_block
      (filter_empty_or_comment iterSrc))))

/-- The pipeline composed in the order the specification describes the
stages (noise filter applied to the raw lines first, then the
include-guard filter, then the blank/line-comment, block-comment and
second blank/line-comment filters).  Modelled from the spec for
comparison with `code_lines`; this is not what the source builds. -/
def code_lines_spec_order : Src :=
  filter_empty_or_comment (filter_comment_block
    (filter_empty_or_comment (filter_include_guard
      (filter_preprocessor iterSrc))))

/-- Terminal outcome of `process` for one file: a returned status, a
raised `CannotProcess` (strict-mode `error`), a Python-level crash, or
fuel exhaustion of the model. -/
inductive Out
  | ret (s : String) (st : St)
  | raised (m : String) (st : St)
  | crash (k : CrashK) (st : St)
  | fuelOut (st : St)
deriving Repr

/-- The state carried by an outcome. -/
def Out.state : Out → St
  | .ret _ st => st
  | .raised _ st => st
  | .crash _ st => st
  | .fuelOut st => st

/-- A classification tuple `(line, line_nr, nesting_depth)` recorded by
`consume_if` for the first `#include` / first code line of a block. -/
abbrev CTup := String × Int × Nat

/-- One classification step of the `consume_if` loop (source lines
123-132): `#endif` decrements the depth, `#if...` increments it, the
first `#include` and the first code line are recorded with the current
line number and depth. -/
def classifyStmt (l : String) (lnr : Int) (depth : Nat)
    (incl code : Option CTup) : Nat × Option CTup × Option CTup :=
  if re_endif l then (depth - 1, incl, code)
  else if re_if l then (depth + 1, incl, code)
  else if re_include l then
    (depth, (match incl with | none => some (l, lnr, depth) | some t => some t), code)
  else
    (depth, incl, (match code with | none => some (l, lnr, depth) | some t => some t))

/-- Result of `consume_if`: the statement following the block (or `none`
when the input ended), the include/code classification, the private
buffer of consumed output, the ghost list of classified statements, and
the state (with `out_buf` restored). -/
inductive CIRes
  | ok (lopt : Option String) (incl code : Option CTup) (tmp : List Frag)
      (stmts : List String) (st : St)
  | halt (o : Out)

/-- The loop of `consume_if` (source lines 122-139): while the depth is
positive, classify the current statement and pull the next one; a clean
exhaustion of the pipeline sets the following statement to `None`. -/
def consumeGo : Nat → String → St → Option CTup → Option CTup →
    List String → CIRes
  | 0, _, st, _, _, _ => .halt (.fuelOut st)
  | fuel + 1, l, st, incl, code, stmts =>
      if st.nesting_depth > 0 then
        match code_lines (fuel + 1)
            { st with nesting_depth :=
                (classifyStmt l st.line_nr st.nesting_depth incl code).1 } with
        | .ok (some l2) st2 =>
            consumeGo fuel l2 st2
              (classifyStmt l st.line_nr st.nesting_depth incl code).2.1
              (classifyStmt l st.line_nr st.nesting_depth incl code).2.2
              (stmts ++ [l])
        | .ok none st2 =>
            .ok none
              (classifyStmt l st.line_nr st.nesting_depth incl code).2.1
              (classifyStmt l st.line_nr st.nesting_depth incl code).2.2
              [] (stmts ++ [l]) st2
        | .crash k st2 => .halt (.crash k st2)
        | .fuelOut st2 => .halt (.fuelOut st2)
      else .ok (some l) incl code [] stmts st

/-- `consume_if` (source lines 114-142): swap `out_buf` for a private
buffer, pull the line after the opening conditional (an unguarded `next`
outside any generator, so exhaustion here raises a bare
`StopIteration`), run the consumption loop, restore `out_buf` and return
the private buffer.  On a crash inside the loop the old buffer is lost
(Python rebinds `self.out_buf`), which the halt state reflects. -/
def consume_if (fuel : Nat) (st : St) : CIRes :=
  match code_lines fuel { st with out_buf := [], nesting_depth := 1 } with
  | .ok (some l) st1 =>
      match consumeGo fuel l st1 none none [] with
      | .ok lopt incl code _ stmts st2 =>
          .ok lopt incl code st2.out_buf stmts { st2 with out_buf := st.out_buf }
      | .halt o => .halt o
  | .ok none st1 => .halt (.crash .stopIteration st1)
  | .crash k st1 => .halt (.crash k st1)
  | .fuelOut st1 => .halt (.fuelOut st1)

/-- Result of one iteration of the `process` loop body: continue with a
new state and seen-includes list, or halt with a terminal outcome. -/
inductive StepR
  | cont (st : St) (includes : List String)
  | halt (o : Out)
deriving Repr

/-- `Namespacer.error` (source lines 144-145), or its permissive-mode
replacement installed by `main` when `--errors` is given (source lines
273-281): strict mode raises `CannotProcess(msg)`; permissive mode sets
`status` to the first failure, logs the message, and appends it to the
output buffer as a `// `-prefixed comment line. -/
def errorStep (msg : String) (st : St) : Option St :=
  if st.errorsMode then
    some { st with
           status := (match st.status with | none => some msg | some s => some s),
           msgs := st.msgs ++ [msg],
           out_buf := st.out_buf ++ [Frag.synth ("// " ++ pyStrip msg ++ "\n")] }
  else none

/-- `"'%s' starting on line %s contains '#includes' and code:\n%s: %s\n%s: %s"` -/
def mixedMsg (firstIf : String) (firstNr : Int) (it ct : CTup) : String :=
  "\x27" ++ firstIf ++ "\x27 starting on line " ++ toString firstNr ++
  " contains \x27#includes\x27 and code:\n" ++ toString it.2.1 ++ ": " ++ it.1 ++
  "\n" ++ toString ct.2.1 ++ ": " ++ ct.1

/-- The include-within-conditional-within-namespace diagnostic (source
lines 172-177). -/
def inclInIfMsg (it : CTup) (firstIf : String) (firstNr : Int)
    (trig : String × Int) : String :=
  "\x27" ++ it.1 ++ "\x27 in line " ++ toString it.2.1 ++
  " (contained within \x27" ++ firstIf ++ "\x27 starting in line " ++
  toString firstNr ++ ") after first line of code in line " ++
  toString trig.2 ++ ": " ++ trig.1

/-- The namespace-insertion-before-conditional diagnostic (source lines
181-183). -/
def insertBeforeIfMsg (firstIf : String) (firstNr : Int) (ct : CTup) : String :=
  "inserting namespace before \x27" ++ firstIf ++ "\x27 on line " ++
  toString firstNr ++ " because it contains code on line " ++
  toString ct.2.1 ++ ": " ++ ct.1

/-- Handling of one consumed conditional block by the decision engine
(source lines 165-188): a block with both an include and code fails with
`mixed #if` (suffixed when the namespace is active); an include-only
block inside the namespace fails with
`include within #if within namespace`; a code-only block outside the
namespace opens the namespace just before the block; then the private
buffer is appended to the output. -/
def handleIfResult (firstIf : String) (firstNr : Int)
    (incl code : Option CTup) (tmp : List Frag) (st : St) :
    Option St ⊕ (String × St) :=
  match incl, code with
  | some it, some ct =>
      let st1 : St :=
        { st with msgs := st.msgs ++ [mixedMsg firstIf firstNr it ct] }
      let msg := "mixed #if" ++
        (if st1.namespace_active.isSome then " within namespace" else "")
      (match errorStep msg st1 with
       | none => .inr (msg, st1)
       | some st2 => .inl (some { st2 with out_buf := st2.out_buf ++ tmp }))
  | some it, none =>
      match st.namespace_active with
      | some trig =>
          let st1 : St :=
            { st with msgs := st.msgs ++ [inclInIfMsg it firstIf firstNr trig] }
          (match errorStep "include within #if within namespace" st1 with
           | none => .inr ("include within #if within namespace", st1)
           | some st2 => .inl (some { st2 with out_buf := st2.out_buf ++ tmp }))
      | none => .inl (some { st with out_buf := st.out_buf ++ tmp })
  | none, some ct =>
      match st.namespace_active with
      | none =>
          let st1 : St :=
            { st with
              msgs := st.msgs ++ [insertBeforeIfMsg firstIf firstNr ct],
              out_buf := st.out_buf ++ [Frag.synth (open_namespace st.ns)] ++ tmp,
              namespace_active := some (firstIf, firstNr) }
          .inl (some st1)
      | some _ => .inl (some { st with out_buf := st.out_buf ++ tmp })
  | none, none => .inl (some { st with out_buf := st.out_buf ++ tmp })

/-- `"closing namespace before closing include guard on line %s: %s"` -/
def closeGuardMsg (nr : Int) (l : String) : String :=
  "closing namespace before closing include guard on line " ++ toString nr
    ++ ": " ++ l

/-- `"superfluous '#endif' in line %s: %s"` -/
def superfluousMsg (nr : Int) (l : String) : String :=
  "superfluous \x27#endif\x27 in line " ++ toString nr ++ ": " ++ l

/-- Handling of an `#endif` statement by the decision engine (source
lines 192-202). -/
def handleEndif (l : String) (st : St) : St :=
  if st.include_guard then
    let st1 : St := { st with include_guard := false }
    match st1.namespace_active with
    | some _ =>
        { st1 with
          namespace_active := none,
          msgs := st1.msgs ++ [closeGuardMsg st1.line_nr l],
          out_buf := st1.out_buf ++ [Frag.synth (close_namespace st1.ns)] }
    | none => st1
  else { st with msgs := st.msgs ++ [superfluousMsg st.line_nr l] }

/-- The duplicate-include diagnostic (source lines 207-210). -/
def dupIncludeMsg (l : String) (nr : Int) : String :=
  "\x27" ++ l ++ "\x27 in line " ++ toString nr ++
  " was also included above, ignoring second #include now within namespace"

/-- The include-after-code diagnostic (source lines 215-218). -/
def afterCodeMsg (l : String) (nr : Int) (trig : String × Int) : String :=
  "\x27" ++ l ++ "\x27 in line " ++ toString nr ++
  " after first line of code in line " ++ toString trig.2 ++ ": " ++ trig.1

/-- `"seen includes: %s"` -/
def seenIncludesMsg (includes : List String) : String :=
  "seen includes: " ++ String.intercalate ", " includes

/-- The first line of the duplicate-include replacement comment (source
line 212; the Python code appends it without a trailing newline). -/
def dupCommentLine : String :=
  "// this include was already seen before, outside the namespace, so ignoring it here"

/-- Handling of an `#include` statement by the decision engine (source
lines 203-224).  An include without a space after the directive makes
`.group(1)` fail with `AttributeError`.  Inside the namespace, a target
already seen is dropped (via `drop_lines`) and replaced by a two-line
comment; an unseen one fails with `#include within namespace`.  Outside
the namespace the target is added to the seen-includes set. -/
def handleInclude (l : String) (st : St) (includes : List String) : StepR :=
  match re_include_arg l with
  | none => .halt (.crash .attributeError st)
  | some arg =>
      let included := pyStrip arg
      match st.namespace_active with
      | some trig =>
          if includes.contains included then
            .cont
              { st with
                msgs := st.msgs ++ [dupIncludeMsg l st.line_nr],
                drop_lines := st.drop_lines + 1,
                out_buf := st.out_buf ++
                  [Frag.synth dupCommentLine, Frag.synth ("// " ++ l)] }
              includes
          else
            let st1 : St :=
              { st with msgs :=
                  (st.msgs ++ [afterCodeMsg l st.line_nr trig]) ++
                  (if includes.isEmpty then [] else [seenIncludesMsg includes]) }
            (match errorStep "#include within namespace" st1 with
             | none => .halt (.raised "#include within namespace" st1)
             | some st2 => .cont st2 includes)
      | none =>
          .cont st (if includes.contains included then includes
                    else includes ++ [included])

/-- `"namespace already present in line %s: %s"` -/
def nsPresentMsg (nr : Int) (l : String) : String :=
  "namespace already present in line " ++ toString nr ++ ": " ++ l

/-- `"namespaced class '%s' predeclaration in line %s: %s"` -/
def predecMsg (cname : String) (nr : Int) (l : String) : String :=
  "namespaced class \x27" ++ cname ++ "\x27 predeclaration in line " ++
  toString nr ++ ": " ++ l

/-- `"inserting namespace before code line %s: %s"` -/
def insertBeforeCodeMsg (nr : Int) (l : String) : String :=
  "inserting namespace before code line " ++ toString nr ++ ": " ++ l

/-- Handling of a plain code statement by the decision engine (source
lines 225-242).  The already-present check comes first; then, while the
namespace is inactive, a forward class declaration is wrapped in its own
open/close pair (dropping the raw line) without activating the
namespace, and any other code line opens the namespace and becomes the
trigger. -/
def handleCode (l : String) (st : St) (includes : List String) : StepR :=
  if containsSub l ("namespace " ++ st.ns) then
    .halt (.ret "namespace already present"
      { st with msgs := st.msgs ++ [nsPresentMsg st.line_nr l] })
  else
    match re_class_predec l with
    | some cname =>
        match st.namespace_active with
        | none =>
            .cont
              { st with
                drop_lines := st.drop_lines + 1,
                out_buf := st.out_buf ++
                  [Frag.synth (open_namespace st.ns),
                   Frag.synth (l ++ "\n"),
                   Frag.synth (close_namespace st.ns)],
                msgs := st.msgs ++ [predecMsg cname st.line_nr l] }
              includes
        | some _ => .cont st includes
    | none =>
        match st.namespace_active with
        | none =>
            .cont
              { st with
                msgs := st.msgs ++ [insertBeforeCodeMsg st.line_nr l],
                out_buf := st.out_buf ++ [Frag.synth (open_namespace st.ns)],
                namespace_active := some (l, st.line_nr) }
              includes
        | some _ => .cont st includes

/-- One iteration of the `process` loop body (source lines 159-242): the
`while` chain of conditional blocks, then the `#endif`, `#include` and
plain-code handlers. -/
def stepLine : Nat → String → St → List String → StepR
  | 0, _, st, _ => .halt (.fuelOut st)
  | fuel + 1, l, st, includes =>
      if re_if l then
        let firstIf := l
        let firstNr := st.line_nr
        match consume_if (fuel + 1) st with
        | .halt o => .halt o
        | .ok lopt incl code tmp _ st1 =>
            match handleIfResult firstIf firstNr incl code tmp st1 with
            | .inr (msg, st2) => .halt (.raised msg st2)
            | .inl (some st2) =>
                (match lopt with
                 | none => .cont st2 includes
                 | some l2 => stepLine fuel l2 st2 includes)
            | .inl none => .halt (.fuelOut st1)
      else if re_endif l then .cont (handleEndif l st) includes
      else if re_include l then handleInclude l st includes
      else handleCode l st includes

/-- `"closing namespace after last line %s: %s"` -/
def closeAtEndMsg (nr : Int) (fullLine : String) : String :=
  "closing namespace after last line " ++ toString nr ++ ": " ++
  rstripNl fullLine

/-- End of `process` (source lines 244-253): close a still-active
namespace, then return the permissive-mode status if set, `empty` when
the output buffer equals the input lines, else `success`. -/
def finishProcess (st : St) : Out :=
  let st1 : St :=
    match st.namespace_active with
    | some _ =>
        { st with
          msgs := st.msgs ++ [closeAtEndMsg st.line_nr st.full_line],
          out_buf := st.out_buf ++ [Frag.synth (close_namespace st.ns)] }
    | none => st
  match st1.status with
  | some s => .ret s st1
  | none =>
      if st1.out_buf.map Frag.text = st1.origLines then .ret "empty" st1
      else .ret "success" st1

/-- The main loop of `process` (source line 159): pull the next logical
statement and run the loop body. -/
def procLoop : Nat → St → List String → Out
  | 0, st, _ => .fuelOut st
  | fuel + 1, st, includes =>
      match code_lines (fuel + 1) st with
      | .ok (some l) st' =>
          (match stepLine (fuel + 1) l st' includes with
           | .cont st2 inc2 => procLoop fuel st2 inc2
           | .halt o => o)
      | .ok none st' => finishProcess st'
      | .crash k st' => .crash k st'
      | .fuelOut st' => .fuelOut st'

/-- The initial `Namespacer` state for a file's lines, a namespace name
and the error-handling mode. -/
def initSt (lines : List String) (ns : String) (errorsMode : Bool) : St :=
  { input := lines, ns := ns, errorsMode := errorsMode, origLines := lines }

/-- `Namespacer(file, lines, namespace).process()`, with fuel amply
exceeding the number of pipeline pulls possible for the input. -/
def process (lines : List String) (ns : String) (errorsMode : Bool) : Out :=
  procLoop (4 * lines.length + 64) (initSt lines ns errorsMode) []

/-- The per-file result string `main` records: the returned status, or
the argument of a caught `CannotProcess`; a crash propagates out of
`main` (no result). -/
def mainResult : Out → Option String
  | .ret s _ => some s
  | .raised m _ => some m
  | .crash _ _ => none
  | .fuelOut _ => none

/-- The write-back condition of `main` (source line 292): write when the
result is `success`, or — under `--force` — when it is anything except
`namespace already present`; never under `--dry-run`. -/
def shouldWrite (result : String) (force dryRun : Bool) : Bool :=
  !dryRun && (result = "success" ||
    (decide (result ≠ "namespace already present") && force))

/-- The crash kind of an outcome, when it is a crash. -/
def Out.crashKind : Out → Option CrashK
  | .crash k _ => some k
  | _ => none

/-- The texts of the final output buffer of an outcome (the Python
`ns.out_buf`). -/
def outTexts (o : Out) : List String :=
  (o.state.out_buf).map Frag.text

/-- The pending line of a state as a list (empty or a singleton). -/
def pendL (st : St) : List String :=
  match st.pending with
  | none => []
  | some p => [p]

/-- C10: a final logical line ending in a backslash continuation, and a
final `#ifndef`/`#define` guard pair with nothing after it, both hit an
unguarded `next()` on an exhausted iterator inside a generator and crash
with a `RuntimeError` instead of producing any result status (the caught
`CannotProcess` results and returned statuses are the only documented
outcomes; a crash yields none). -/
theorem claim_C10 :
    (process ["int x \\\n"] "ns" false).crashKind = some CrashK.runtimeError ∧
    mainResult (process ["int x \\\n"] "ns" false) = none ∧
    (process ["#ifndef A\n", "#define A\n"] "ns" false).crashKind =
      some CrashK.runtimeError ∧
    mainResult (process ["#ifndef A\n", "#define A\n"] "ns" false) = none := by
  refine ⟨by decide, by decide, by decide, by decide⟩

/-- C7: a plain-code statement containing the literal namespace-open text
for the configured name makes `process` return
`namespace already present` before any other code handling — for every
state, in particular whichever value `namespace_active` has — leaving the
output buffer untouched; `main` never writes such a file back (even under
`--force`); and on the concrete output of a successful first run the
second run returns exactly this status. -/
theorem claim_C7 :
    (∀ (fuel : Nat) (l : String) (st : St) (includes : List String),
      re_if l = false → re_endif l = false → re_include l = false →
      containsSub l ("namespace " ++ st.ns) = true →
      stepLine (fuel + 1) l st includes =
        .halt (.ret "namespace already present"
          { st with msgs := st.msgs ++ [nsPresentMsg st.line_nr l] })) ∧
    (∀ force dryRun : Bool,
      shouldWrite "namespace already present" force dryRun = false) ∧
    mainResult (process ["int a;\n"] "ns" false) = some "success" ∧
    mainResult (process (outTexts (process ["int a;\n"] "ns" false)) "ns" false) =
      some "namespace already present" := by
  refine ⟨?_, ?_, by decide, by decide⟩
  · intro fuel l st includes h1 h2 h3 h4
    simp [stepLine, h1, h2, h3, handleCode, h4]
  · intro force dryRun
    cases force <;> cases dryRun <;> decide

/-- Witness for `claim_C7`: the already-present check at a concrete
statement and state with the namespace *active*, discharging the
hypotheses at `l = "namespace ns \x7b"`. -/
theorem claim_C7_witness :
    stepLine 3 "namespace ns \x7b"
      { initSt ["x\n"] "ns" false with namespace_active := some ("int a;", 1) } [] =
      .halt (.ret "namespace already present"
        { initSt ["x\n"] "ns" false with
          namespace_active := some ("int a;", 1),
          msgs := [nsPresentMsg (-1) "namespace ns \x7b"] }) := by
  have h := claim_C7.1 2 "namespace ns \x7b"
    { initSt ["x\n"] "ns" false with namespace_active := some ("int a;", 1) } []
    (by decide) (by decide) (by decide) (by decide)
  simpa [initSt] using h

/-- C8: a logical statement matching a forward class declaration
(`class NAME;`) reached while the namespace is inactive is emitted
wrapped in its own namespace-open and namespace-close markers immediately
around just that one (re-emitted) line, the raw line being marked for
drop, and the persistent namespace state stays inactive (the resulting
state is the old one with only `drop_lines`, `out_buf` and `msgs`
changed). -/
theorem claim_C8 :
    ∀ (fuel : Nat) (l : String) (st : St) (includes : List String)
      (cname : String),
      re_if l = false → re_endif l = false → re_include l = false →
      containsSub l ("namespace " ++ st.ns) = false →
      re_class_predec l = some cname →
      st.namespace_active = none →
      stepLine (fuel + 1) l st includes =
        .cont
          { st with
            drop_lines := st.drop_lines + 1,
            out_buf := st.out_buf ++
              [Frag.synth (open_namespace st.ns),
               Frag.synth (l ++ "\n"),
               Frag.synth (close_namespace st.ns)],
            msgs := st.msgs ++ [predecMsg cname st.line_nr l] }
          includes := by
  intro fuel l st includes cname h1 h2 h3 h4 h5 h6
  simp [stepLine, h1, h2, h3, handleCode, h4, h5, h6]

/-- Witness for `claim_C8` at the statement `class Widget;` in the
initial state. -/
theorem claim_C8_witness :
    stepLine 3 "class Widget;" (initSt ["class Widget;\n"] "ns" false) [] =
      .cont
        { initSt ["class Widget;\n"] "ns" false with
          drop_lines := 1,
          out_buf :=
            [Frag.synth (open_namespace "ns"),
             Frag.synth "class Widget;\n",
             Frag.synth (close_namespace "ns")],
          msgs := [predecMsg "Widget" (-1) "class Widget;"] }
        [] := by
  have h := claim_C8 2 "class Widget;" (initSt ["class Widget;\n"] "ns" false) []
    "Widget" (by decide) (by decide) (by decide) (by decide) (by decide) (by decide)
  simpa [initSt] using h

/-- Counterexample to C3 as stated: the failure status carries a leading
`#`.  On a concrete file with an unseen include after code, the recorded
result is `#include within namespace`, not `include within namespace`. -/
theorem claim_C3_cex :
    mainResult (process ["a();\n", "#include \"b.h\"\n"] "ns" false) =
      some "#include within namespace" ∧
    mainResult (process ["a();\n", "#include \"b.h\"\n"] "ns" false) ≠
      some "include within namespace" := by
  refine ⟨by decide, by decide⟩

/-- C3 (amended): an `#include` statement reached while the namespace is
active whose target is already in the seen-includes set is marked for
drop (the raw pending line is then discarded by `iter_lines` instead of
being mirrored) and replaced by the two-line explanatory comment, without
raising and without touching `status`; an unseen target fails by raising
`CannotProcess` with status `#include within namespace` (with a leading
`#`). -/
theorem claim_C3 :
    (∀ (fuel : Nat) (l arg : String) (st : St) (includes : List String)
       (trig : String × Int),
      re_if l = false → re_endif l = false → re_include l = true →
      re_include_arg l = some arg →
      st.namespace_active = some trig →
      includes.contains (pyStrip arg) = true →
      stepLine (fuel + 1) l st includes =
        .cont
          { st with
            msgs := st.msgs ++ [dupIncludeMsg l st.line_nr],
            drop_lines := st.drop_lines + 1,
            out_buf := st.out_buf ++
              [Frag.synth dupCommentLine, Frag.synth ("// " ++ l)] }
          includes) ∧
    (∀ (st : St) (p : String) (n : Nat),
      st.pending = some p → st.drop_lines = n + 1 →
      resolvePending st =
        { st with pending := none, drop_lines := n,
                  trace := st.trace ++ [(false, p)] }) ∧
    (∀ (fuel : Nat) (l arg : String) (st : St) (includes : List String)
       (trig : String × Int),
      re_if l = false → re_endif l = false → re_include l = true →
      re_include_arg l = some arg →
      st.namespace_active = some trig →
      includes.contains (pyStrip arg) = false →
      st.errorsMode = false →
      stepLine (fuel + 1) l st includes =
        .halt (.raised "#include within namespace"
          { st with msgs :=
              (st.msgs ++ [afterCodeMsg l st.line_nr trig]) ++
              (if includes.isEmpty then [] else [seenIncludesMsg includes]) })) := by
  refine ⟨?_, ?_, ?_⟩
  · intro fuel l arg st includes trig h1 h2 h3 h4 h5 h6
    replace h6 : pyStrip arg ∈ includes := by simpa using h6
    simp [stepLine, h1, h2, h3, handleInclude, h4, h5, h6]
  · intro st p n hp hd
    simp [resolvePending, hp, hd]
  · intro fuel l arg st includes trig h1 h2 h3 h4 h5 h6 h7
    replace h6 : pyStrip arg ∉ includes := by simpa using h6
    simp [stepLine, h1, h2, h3, handleInclude, h4, h5, h6, errorStep, h7]

/-- Witness for `claim_C3`: the duplicate branch at a concrete statement
and active-namespace state with `"b.h"` already seen. -/
theorem claim_C3_witness :
    stepLine 3 "#include \"b.h\""
      { initSt [] "ns" false with namespace_active := some ("a();", 1) }
      ["\"b.h\""] =
      .cont
        { initSt [] "ns" false with
          namespace_active := some ("a();", 1),
          msgs := [dupIncludeMsg "#include \"b.h\"" (-1)],
          drop_lines := 1,
          out_buf :=
            [Frag.synth dupCommentLine,
             Frag.synth "// #include \"b.h\""] }
        ["\"b.h\""] := by
  have h := claim_C3.1 2 "#include \"b.h\"" "\"b.h\""
    { initSt [] "ns" false with namespace_active := some ("a();", 1) }
    ["\"b.h\""] ("a();", 1) (by decide) (by decide) (by decide) (by decide)
    (by decide) (by decide)
  simpa [initSt] using h

/-- A statement classified as an `#include` by the `consume_if` loop
(neither `#endif` nor `#if`-family, and matching `#include`). -/
def stmtIsInclude (s : String) : Bool :=
  !re_endif s && !re_if s && re_include s

/-- A statement classified as a plain code line by the `consume_if` loop
(none of `#endif`, `#if`-family, `#include`). -/
def stmtIsCode (s : String) : Bool :=
  !re_endif s && !re_if s && !re_include s

/-- `classifyStmt` records an include exactly when one was already
recorded or the classified statement is an include. -/
theorem classifyStmt_incl (l : String) (nr : Int) (d : Nat)
    (incl code : Option CTup) :
    ((classifyStmt l nr d incl code).2.1.isSome = true) ↔
      (incl.isSome = true ∨ stmtIsInclude l = true) := by
  unfold classifyStmt stmtIsInclude
  split_ifs with h1 h2 h3
  · simp [h1]
  · simp [h1, h2]
  · cases incl <;> simp [h1, h2, h3]
  · cases incl <;> simp [h1, h2, h3]

/-- `classifyStmt` records a code line exactly when one was already
recorded or the classified statement is a plain code line. -/
theorem classifyStmt_code (l : String) (nr : Int) (d : Nat)
    (incl code : Option CTup) :
    ((classifyStmt l nr d incl code).2.2.isSome = true) ↔
      (code.isSome = true ∨ stmtIsCode l = true) := by
  unfold classifyStmt stmtIsCode
  split_ifs with h1 h2 h3
  · simp [h1]
  · simp [h1, h2]
  · simp [h1, h2, h3]
  · cases code <;> simp [h1, h2, h3]

/-- The `consume_if` loop classifies exactly the statements it appends to
the ghost statement list: the final include/code records are inhabited
precisely when one was already recorded or some newly consumed statement
is of the corresponding kind. -/
theorem consumeGo_stmts :
    ∀ (fuel : Nat) (l : String) (st : St) (incl code : Option CTup)
      (stmts : List String) (lopt : Option String) (incl' code' : Option CTup)
      (tmp : List Frag) (stmts' : List String) (st' : St),
      consumeGo fuel l st incl code stmts = .ok lopt incl' code' tmp stmts' st' →
      ∃ delta, stmts' = stmts ++ delta ∧
        (incl'.isSome = true ↔
          (incl.isSome = true ∨ ∃ s ∈ delta, stmtIsInclude s = true)) ∧
        (code'.isSome = true ↔
          (code.isSome = true ∨ ∃ s ∈ delta, stmtIsCode s = true)) := by
  intro fuel
  induction fuel with
  | zero =>
      intro l st incl code stmts lopt incl' code' tmp stmts' st' h
      simp [consumeGo] at h
  | succ f ih =>
      intro l st incl code stmts lopt incl' code' tmp stmts' st' h
      unfold consumeGo at h
      by_cases hd : st.nesting_depth > 0
      · rw [if_pos hd] at h
        rcases hc : classifyStmt l st.line_nr st.nesting_depth incl code with
          ⟨d1, incl1, code1⟩
        rw [hc] at h
        simp only at h
        have hi1 : incl1.isSome = true ↔
            (incl.isSome = true ∨ stmtIsInclude l = true) := by
          have := classifyStmt_incl l st.line_nr st.nesting_depth incl code
          rw [hc] at this; exact this
        have hc1 : code1.isSome = true ↔
            (code.isSome = true ∨ stmtIsCode l = true) := by
          have := classifyStmt_code l st.line_nr st.nesting_depth incl code
          rw [hc] at this; exact this
        rcases hres : code_lines (f + 1) { st with nesting_depth := d1 } with
          ⟨l2opt, st2⟩ | ⟨k, st2⟩ | st2
        · rw [hres] at h
          rcases l2opt with _ | l2
          · injection h with e1 e2 e3 e4 e5 e6
            subst e1; subst e2; subst e3; subst e4; subst e5; subst e6
            refine ⟨[l], rfl, ?_, ?_⟩
            · simpa using hi1
            · simpa using hc1
          · rcases ih l2 st2 incl1 code1 (stmts ++ [l]) lopt incl' code' tmp
              stmts' st' h with ⟨delta2, hst, hi2, hc2⟩
            refine ⟨l :: delta2, by simpa using hst, ?_, ?_⟩
            · rw [hi2, hi1]
              simp [List.mem_cons, or_assoc]
            · rw [hc2, hc1]
              simp [List.mem_cons, or_assoc]
        · rw [hres] at h; exact absurd h (by simp)
        · rw [hres] at h; exact absurd h (by simp)
      · rw [if_neg hd] at h
        injection h with e1 e2 e3 e4 e5 e6
        subst e1; subst e2; subst e3; subst e4; subst e5; subst e6
        exact ⟨[], by simp⟩

/-- Counterexample to C4 as stated: the failure status is *not* the same
in both namespace states.  A mixed conditional met while the namespace is
inactive yields `mixed #if`, but the same block after code has started
yields `mixed #if within namespace`. -/
theorem claim_C4_cex :
    mainResult (process ["#if A\n", "int x;\n", "#include \"a.h\"\n", "#endif\n"]
        "ns" false) = some "mixed #if" ∧
    mainResult (process ["y();\n", "#if A\n", "int x;\n", "#include \"a.h\"\n",
        "#endif\n"] "ns" false) = some "mixed #if within namespace" ∧
    ("mixed #if within namespace" : String) ≠ "mixed #if" := by
  refine ⟨by decide, by decide, by decide⟩

/-- C4 (amended): a conditional block containing both an `#include` line
and a plain-code line at any nesting depth is classified with both
records set, and processing then fails — with status `mixed #if` while
the namespace is inactive but `mixed #if within namespace` while it is
active (strict mode raises it; permissive mode records it as the status
if none is set yet). -/
theorem claim_C4 :
    (∀ (fuel : Nat) (st : St) (lopt : Option String) (incl code : Option CTup)
       (tmp : List Frag) (stmts : List String) (st' : St),
      consume_if fuel st = .ok lopt incl code tmp stmts st' →
      (∃ s ∈ stmts, stmtIsInclude s = true) →
      (∃ s ∈ stmts, stmtIsCode s = true) →
      incl.isSome = true ∧ code.isSome = true) ∧
    (∀ (fuel : Nat) (l : String) (st : St) (includes : List String)
       (lopt : Option String) (it ct : CTup) (tmp : List Frag)
       (stmts : List String) (st1 : St),
      re_if l = true →
      consume_if (fuel + 1) st = .ok lopt (some it) (some ct) tmp stmts st1 →
      st1.errorsMode = false →
      stepLine (fuel + 1) l st includes =
        .halt (.raised
          ("mixed #if" ++
            (if st1.namespace_active.isSome then " within namespace" else ""))
          { st1 with msgs := st1.msgs ++ [mixedMsg l st.line_nr it ct] })) ∧
    (∀ (firstIf : String) (firstNr : Int) (it ct : CTup) (tmp : List Frag)
       (st1 : St),
      st1.errorsMode = true →
      handleIfResult firstIf firstNr (some it) (some ct) tmp st1 =
        .inl (some
          { st1 with
            msgs := (st1.msgs ++ [mixedMsg firstIf firstNr it ct]) ++
              [("mixed #if" ++
                (if st1.namespace_active.isSome then " within namespace" else ""))],
            status :=
              (match st1.status with
               | none => some ("mixed #if" ++
                   (if st1.namespace_active.isSome then " within namespace" else ""))
               | some s => some s),
            out_buf := (st1.out_buf ++
              [Frag.synth ("// " ++
                pyStrip ("mixed #if" ++
                  (if st1.namespace_active.isSome then " within namespace" else ""))
                ++ "\n")]) ++ tmp })) := by
  refine ⟨?_, ?_, ?_⟩
  · intro fuel st lopt incl code tmp stmts st' h hinc hcode
    unfold consume_if at h
    split at h
    · split at h
      · rename_i x1 l0 st1 heq1 x2 lopt2 incl2 code2 tmp2 stmts2 st2 hgo
        injection h with e1 e2 e3 e4 e5 e6
        obtain ⟨delta, hst, hi, hc⟩ :=
          consumeGo_stmts fuel l0 st1 none none [] lopt2 incl2 code2 tmp2
            stmts2 st2 hgo
        simp at hst
        have h5 : delta = stmts := by rw [← hst, e5]
        subst h5
        constructor
        · rw [← e2]; exact hi.mpr (Or.inr hinc)
        · rw [← e3]; exact hc.mpr (Or.inr hcode)
      · simp at h
    · simp at h
    · simp at h
    · simp at h
  · intro fuel l st includes lopt it ct tmp stmts st1 hif hci herr
    simp [stepLine, hif, hci, handleIfResult, errorStep, herr]
  · intro firstIf firstNr it ct tmp st1 herr
    simp [handleIfResult, errorStep, herr]

/-- The state component of a `consume_if` result. -/
def CIRes.stOf : CIRes → St
  | .ok _ _ _ _ _ st => st
  | .halt o => o.state

/-- Witness for `claim_C4`: a concrete mixed block (code line plus
include inside one conditional) is classified with both records set. -/
theorem claim_C4_witness :
    (some ("#include \"a.h\"", (2 : Int), 1) : Option CTup).isSome = true ∧
    (some ("int x;", (1 : Int), 1) : Option CTup).isSome = true := by
  have h := claim_C4.1 10
    (initSt ["int x;\n", "#include \"a.h\"\n", "#endif\n"] "ns" false)
    none (some ("#include \"a.h\"", 2, 1)) (some ("int x;", 1, 1))
    [Frag.orig "int x;\n", Frag.orig "#include \"a.h\"\n", Frag.orig "#endif\n"]
    ["int x;", "#include \"a.h\"", "#endif"]
    (CIRes.stOf (consume_if 10
      (initSt ["int x;\n", "#include \"a.h\"\n", "#endif\n"] "ns" false)))
    (by rfl) (by decide) (by decide)
  exact h

/-- A raw line whose logical statement is a plain code line: nonempty
after stripping, not a line comment, block comment or continuation, and
not any directive recognised by the pipeline or the decision engine. -/
def plainCodeRaw (c : String) : Bool :=
  !(pyStrip c = "") && !strStarts (pyStrip c) "//" &&
  !strStarts (pyStrip c) "/*" && !endsWithBackslash (pyStrip c) &&
  (re_ifndef (pyStrip c)).isNone && !re_noise (pyStrip c) &&
  !re_if (pyStrip c) && !re_endif (pyStrip c) && !re_include (pyStrip c)

/-- C6 as stated: an `#ifndef`/`#define` pair that appears only after
other structural content (here: after a plain code line) never activates
the include-guard state. -/
def ClaimC6Stated : Prop :=
  ∀ (ns c nm : String) (rest : List String),
    plainCodeRaw c = true →
    (process (c :: ("#ifndef " ++ nm ++ "\n") :: ("#define " ++ nm ++ "\n")
        :: rest) ns false).state.guardEver = false

/-- Counterexample to C6: on
`int x; / #ifndef A / #define A / y; / #endif` the guard activates even
though a code line precedes the pair (the filter checks only the
`include_guard` flag, not whether the pair is the file's first structural
element). -/
theorem claim_C6_cex : ¬ ClaimC6Stated := by
  intro h
  have := h "ns" "int x;\n" "A" ["y;\n", "#endif\n"] (by decide)
  exact absurd this (by decide)

/-- The state component of a pull result. -/
def PRes.stOf : PRes → St
  | .ok _ st => st
  | .crash _ st => st
  | .fuelOut st => st

/-- C6 (amended): the include-guard filter activates the guard whenever,
with the guard flag clear, the next two statements of its source are an
`#ifndef NAME` and a matching `#define NAME` — regardless of what was
already consumed before — and it considers no further pair while the
flag is set (and none at all once a broken pair put it into passthrough
mode). -/
theorem claim_C6 :
    (∀ (src : Src) (fuel : Nat) (st : St) (l : String) (st1 : St)
       (nm ld : String) (st2 : St),
      st.figMode = .normal →
      src fuel st = .ok (some l) st1 →
      st1.include_guard = false →
      re_ifndef l = some nm →
      src fuel st1 = .ok (some ld) st2 →
      re_define nm ld = true →
      filter_include_guard src fuel st =
        (match src fuel { st2 with include_guard := true, guardEver := true } with
         | .ok (some l2) st4 => .ok (some l2) st4
         | .ok none st4 => .crash .runtimeError st4
         | .crash k st4 => .crash k st4
         | .fuelOut st4 => .fuelOut st4)) ∧
    (∀ (src : Src) (fuel : Nat) (st : St) (l : String) (st1 : St),
      st.figMode = .normal →
      src fuel st = .ok (some l) st1 →
      st1.include_guard = true →
      filter_include_guard src fuel st = .ok (some l) st1) ∧
    (∀ (src : Src) (fuel : Nat) (st : St),
      st.figMode = .broken [] →
      filter_include_guard src fuel st = src fuel st) := by
  refine ⟨?_, ?_, ?_⟩
  · intro src fuel st l st1 nm ld st2 hfig hs1 hg hnm hs2 hdef
    simp [filter_include_guard, hfig, hs1, hg, hnm, hs2, hdef]
  · intro src fuel st l st1 hfig hs1 hg
    simp [filter_include_guard, hfig, hs1, hg]
  · intro src fuel st hfig
    simp [filter_include_guard, hfig]

/-- Witness for `claim_C6`: the guard pair is recognised at the head of a
concrete file and the filter yields the statement after the pair with the
guard flag set. -/
theorem claim_C6_witness :
    filter_include_guard
      (filter_empty_or_comment (filter_comment_block
        (filter_empty_or_comment iterSrc))) 9
      (initSt ["#ifndef A\n", "#define A\n", "y;\n"] "ns" false) =
    .ok (some "y;")
      (PRes.stOf (filter_include_guard
        (filter_empty_or_comment (filter_comment_block
          (filter_empty_or_comment iterSrc))) 9
        (initSt ["#ifndef A\n", "#define A\n", "y;\n"] "ns" false))) := by
  have h := claim_C6.1
    (filter_empty_or_comment (filter_comment_block
      (filter_empty_or_comment iterSrc))) 9
    (initSt ["#ifndef A\n", "#define A\n", "y;\n"] "ns" false)
    "#ifndef A"
    (PRes.stOf ((filter_empty_or_comment (filter_comment_block
      (filter_empty_or_comment iterSrc))) 9
      (initSt ["#ifndef A\n", "#define A\n", "y;\n"] "ns" false)))
    "A" "#define A"
    (PRes.stOf ((filter_empty_or_comment (filter_comment_block
      (filter_empty_or_comment iterSrc))) 9
      (PRes.stOf ((filter_empty_or_comment (filter_comment_block
        (filter_empty_or_comment iterSrc))) 9
        (initSt ["#ifndef A\n", "#define A\n", "y;\n"] "ns" false)))))
    (by rfl) (by rfl) (by rfl) (by rfl) (by rfl) (by rfl)
  exact h.trans (by rfl)

/-- C9 as stated: in permissive mode the status finally returned equals
the first failure encountered (the status field records the first
failure, so any returned status should agree with it). -/
def ClaimC9Stated : Prop :=
  ∀ (lines : List String) (ns s : String) (fin : St) (m : String),
    process lines ns true = .ret s fin → fin.status = some m → s = m

/-- Counterexample to C9: in permissive mode a mixed conditional records
first failure `mixed #if`, but a later line containing the namespace
literal still returns `namespace already present` immediately — the
returned status is not the first failure, the scan stops before the end
of the file, and no inline comment marks that last failure. -/
theorem claim_C9_cex : ¬ ClaimC9Stated := by
  intro h
  have h2 := h ["#if A\n", "x();\n", "#include \"q\"\n", "#endif\n",
      "namespace ns \x7b\n", "more;\n"] "ns"
    "namespace already present"
    (process ["#if A\n", "x();\n", "#include \"q\"\n", "#endif\n",
      "namespace ns \x7b\n", "more;\n"] "ns" true).state
    "mixed #if" (by rfl) (by decide)
  exact absurd h2 (by decide)

/-- C9 (amended): in permissive (`--errors`) mode every failure raised
through the error channel is recorded as an inline `// ` comment in the
output buffer at the point of failure and the scan continues; the status
field records the first such failure and later ones leave it unchanged;
at end of processing the recorded status is returned — except that a
line containing the existing namespace still returns
`namespace already present` immediately.  A concrete two-failure file is
fully scanned and reports its first failure. -/
theorem claim_C9 :
    (∀ (msg : String) (st : St), st.errorsMode = true → st.status = none →
      errorStep msg st = some
        { st with
          status := some msg,
          msgs := st.msgs ++ [msg],
          out_buf := st.out_buf ++
            [Frag.synth ("// " ++ pyStrip msg ++ "\n")] }) ∧
    (∀ (msg : String) (st : St) (s0 : String),
      st.errorsMode = true → st.status = some s0 →
      errorStep msg st = some
        { st with
          status := some s0,
          msgs := st.msgs ++ [msg],
          out_buf := st.out_buf ++
            [Frag.synth ("// " ++ pyStrip msg ++ "\n")] }) ∧
    (∀ (st : St) (s : String), st.status = some s →
      ∃ st1, finishProcess st = .ret s st1) ∧
    (mainResult (process ["#if A\n", "x;\n", "#include \"q\"\n", "#endif\n", "y;\n",
        "#include \"r\"\n"] "ns" true) = some "mixed #if" ∧
      (process ["#if A\n", "x;\n", "#include \"q\"\n", "#endif\n", "y;\n",
        "#include \"r\"\n"] "ns" true).state.msgs.contains
          "#include within namespace" = true ∧
      (process ["#if A\n", "x;\n", "#include \"q\"\n", "#endif\n", "y;\n",
        "#include \"r\"\n"] "ns" true).state.input = []) := by
  refine ⟨?_, ?_, ?_, by decide, by decide, by decide⟩
  · intro msg st he hs
    simp [errorStep, he, hs]
  · intro msg st s0 he hs
    simp [errorStep, he, hs]
  · intro st s hs
    unfold finishProcess
    cases hna : st.namespace_active <;> simp [hna, hs]

/-- Witness for `claim_C9`: the permissive error handler at a concrete
failure in a concrete state records the inline comment and the status. -/
theorem claim_C9_witness :
    errorStep "mixed #if" (initSt ["x\n"] "ns" true) = some
      { initSt ["x\n"] "ns" true with
        status := some "mixed #if",
        msgs := ["mixed #if"],
        out_buf := [Frag.synth ("// " ++ pyStrip "mixed #if" ++ "\n")] } := by
  have h := claim_C9.1 "mixed #if" (initSt ["x\n"] "ns" true) (by rfl) (by rfl)
  simpa [initSt] using h

/-- C5 as stated: the pipeline that feeds the decision engine behaves as
the composition with the preprocessor-noise filter applied to the raw
lines first, then the include-guard filter, then the blank/line-comment,
block-comment and second blank/line-comment filters. -/
def ClaimC5Stated : Prop :=
  ∀ (fuel : Nat) (st : St), code_lines fuel st = code_lines_spec_order fuel st

/-- Counterexample to C5: `apply` folds the filter list in `reversed`
order, so the noise filter is the *last* stage, not the first.  On a
plain include-guard file the two orders differ: in the spec order the
`#define` line would be eaten by the noise filter before the guard
filter could see it, breaking guard recognition. -/
theorem claim_C5_cex : ¬ ClaimC5Stated := by
  intro h
  have h2 := h 20 (initSt ["#ifndef A\n", "#define A\n", "x;\n", "#endif\n"] "ns" false)
  have h3 := congrArg
    (fun r => match r with | PRes.ok l _ => l | _ => none) h2
  exact absurd h3 (by decide)

/-- C5 (amended): the stages are applied in the reverse of the listed
order — blank/line-comment, block-comment, blank/line-comment again,
include-guard, and the preprocessor-noise filter last — so noise
directive lines still never reach the decision engine (first conjunct),
while `#define` lines do reach the include-guard filter, which therefore
recognises a concrete guard pair (second conjunct). -/
theorem claim_C5 :
    (∀ (fuel : Nat) (st : St) (l : String) (st' : St),
      code_lines fuel st = .ok (some l) st' → re_noise l = false) ∧
    ((process ["#ifndef FOO_H\n", "#define FOO_H\n", "int f();\n", "#endif\n"]
        "ns" false).state.guardEver = true ∧
      mainResult (process ["#ifndef FOO_H\n", "#define FOO_H\n", "int f();\n",
        "#endif\n"] "ns" false) = some "success") := by
  refine ⟨?_, by decide, by decide⟩
  have gen : ∀ (src : Src) (fuel : Nat) (st : St) (l : String) (st' : St),
      fpGo src fuel st = .ok (some l) st' → re_noise l = false := by
    intro src fuel
    induction fuel with
    | zero => intro st l st' h; simp [fpGo] at h
    | succ f ih =>
        intro st l st' h
        unfold fpGo at h
        rcases hres : src (f + 1) st with ⟨l2opt, st2⟩ | ⟨k, st2⟩ | st2 <;>
          rw [hres] at h <;> try simp at h
        rcases l2opt with _ | l2
        · simp at h
        · simp only at h
          by_cases hn : re_noise l2
          · rw [if_pos hn] at h
            exact ih st2 l st' h
          · rw [if_neg hn] at h
            injection h with e1 e2
            injection e1 with e1
            subst e1
            simpa using hn
  exact fun fuel st l st' h => gen _ fuel st l st' h

/-- Witness for `claim_C5`: on a concrete file starting with
`#pragma once`, the first statement the pipeline yields is the code line,
and it is not a noise directive. -/
theorem claim_C5_witness :
    re_noise "int x;" = false := by
  have h := claim_C5.1 9 (initSt ["#pragma once\n", "int x;\n"] "ns" false)
    "int x;"
    (PRes.stOf (code_lines 9 (initSt ["#pragma once\n", "int x;\n"] "ns" false)))
    (by rfl)
  exact h

/-- Extension property of one (or several composed) pipeline pulls:
`tr` is the trace of input lines consumed during the pull; the output
buffer grows exactly by the kept lines as original-line fragments; the
consumed lines, the new pending line and the remaining input re-assemble
the old pending line and input; configuration and engine-owned fields
are untouched; an empty trace leaves pending and `drop_lines` unchanged;
and when a line was pending, the first trace entry is its resolution
(kept whenever `drop_lines` was zero). -/
structure PullExt (st st' : St) (tr : List (Bool × String)) : Prop where
  trace_eq : st'.trace = st.trace ++ tr
  buf_eq : st'.out_buf = st.out_buf ++ keptFrags tr
  lines_eq : tr.map Prod.snd ++ pendL st' ++ st'.input = pendL st ++ st.input
  ns_eq : st'.ns = st.ns
  em_eq : st'.errorsMode = st.errorsMode
  orig_eq : st'.origLines = st.origLines
  na_eq : st'.namespace_active = st.namespace_active
  status_eq : st'.status = st.status
  nil_pend : ∀ r, st.pending = some r → tr = [] →
    st'.pending = some r ∧ st'.drop_lines = st.drop_lines
  head_pend : ∀ r p tr2, st.pending = some r → tr = p :: tr2 →
    p.2 = r ∧ (st.drop_lines = 0 → p.1 = true)

/-- The trivial pull extension. -/
theorem PullExt.pnil (st : St) : PullExt st st [] := by
  refine ⟨by simp, by simp [keptFrags], by simp, rfl, rfl, rfl, rfl, rfl,
    fun _ hp _ => ⟨hp, rfl⟩, ?_⟩
  intro r p tr2 _ h
  exact absurd h (by simp)

/-- `keptFrags` distributes over concatenation. -/
theorem keptFrags_append (a b : List (Bool × String)) :
    keptFrags (a ++ b) = keptFrags a ++ keptFrags b := by
  simp [keptFrags, List.filterMap_append]

/-- Pull extensions compose. -/
theorem PullExt.pcomp {st1 st2 st3 : St} {trA trB : List (Bool × String)}
    (hA : PullExt st1 st2 trA) (hB : PullExt st2 st3 trB) :
    PullExt st1 st3 (trA ++ trB) := by
  refine ⟨?_, ?_, ?_, ?_, ?_, ?_, ?_, ?_, ?_, ?_⟩
  · rw [hB.trace_eq, hA.trace_eq, List.append_assoc]
  · rw [hB.buf_eq, hA.buf_eq, keptFrags_append, List.append_assoc]
  · have h3 := hB.lines_eq
    have h2 := hA.lines_eq
    calc (trA ++ trB).map Prod.snd ++ pendL st3 ++ st3.input
        = trA.map Prod.snd ++ (trB.map Prod.snd ++ pendL st3 ++ st3.input) := by
          simp [List.append_assoc]
      _ = trA.map Prod.snd ++ (pendL st2 ++ st2.input) := by rw [h3]
      _ = pendL st1 ++ st1.input := by rw [← List.append_assoc]; exact h2
  · rw [hB.ns_eq, hA.ns_eq]
  · rw [hB.em_eq, hA.em_eq]
  · rw [hB.orig_eq, hA.orig_eq]
  · rw [hB.na_eq, hA.na_eq]
  · rw [hB.status_eq, hA.status_eq]
  · intro r hp h
    rcases List.append_eq_nil.mp h with ⟨ha, hb⟩
    rcases hA.nil_pend r hp ha with ⟨p1, d1⟩
    rcases hB.nil_pend r p1 hb with ⟨p2, d2⟩
    exact ⟨p2, d2.trans d1⟩
  · intro r p tr2 hp htr
    rcases ha : trA with _ | ⟨pa, trA2⟩
    · rcases hA.nil_pend r hp ha with ⟨p1, d1⟩
      rw [ha] at htr
      simp at htr
      obtain ⟨h1, h2⟩ := hB.head_pend r p tr2 p1 htr
      exact ⟨h1, fun hd => h2 (d1.trans hd)⟩
    · rw [ha] at htr
      simp at htr
      obtain ⟨hpa, _⟩ := htr
      obtain ⟨h1, h2⟩ := hA.head_pend r pa trA2 hp ha
      rw [← hpa]
      exact ⟨h1, h2⟩

/-- `resolvePending` does not change the remaining input. -/
theorem resolvePending_input (st : St) :
    (resolvePending st).input = st.input := by
  unfold resolvePending
  cases st.pending <;> simp
  split_ifs <;> simp

/-- Resolving the pending line is a pull extension ending with no
pending line. -/
theorem resolvePending_ext (st : St) :
    ∃ tr, PullExt st (resolvePending st) tr ∧
      (resolvePending st).pending = none := by
  rcases hp : st.pending with _ | p
  · have hres : resolvePending st = st := by
      unfold resolvePending; rw [hp]
    rw [hres]
    exact ⟨[], PullExt.pnil st, hp⟩
  · by_cases hd : st.drop_lines > 0
    · have hres : resolvePending st =
          { st with
            pending := none,
            drop_lines := st.drop_lines - 1,
            trace := st.trace ++ [(false, p)] } := by
        unfold resolvePending; rw [hp]; simp [hd]
      rw [hres]
      refine ⟨[(false, p)], ?_, by simp⟩
      refine ⟨by simp, by simp [keptFrags], by simp [pendL, hp], rfl, rfl, rfl,
        rfl, rfl, by simp [hp], ?_⟩
      intro r q tr2 hr htr
      rw [hp] at hr
      simp at hr
      simp at htr
      obtain ⟨hq, _⟩ := htr
      subst hq
      exact ⟨hr.symm ▸ rfl, fun h0 => absurd h0 (by omega)⟩
    · have hres : resolvePending st =
          { st with
            pending := none,
            out_buf := st.out_buf ++ [Frag.orig p],
            trace := st.trace ++ [(true, p)] } := by
        unfold resolvePending; rw [hp]; simp [hd]
      rw [hres]
      refine ⟨[(true, p)], ?_, by simp⟩
      refine ⟨by simp, by simp [keptFrags], by simp [pendL, hp], rfl, rfl, rfl,
        rfl, rfl, by simp [hp], ?_⟩
      intro r q tr2 hr htr
      rw [hp] at hr
      simp at hr
      simp at htr
      obtain ⟨hq, _⟩ := htr
      subst hq
      exact ⟨hr.symm ▸ rfl, fun _ => rfl⟩

/-- The state after `iter_lines` consumes one raw line (before the
excluded-marker test decides its fate). -/
def iterStep (st : St) (l : String) (rest : List String) : St :=
  { st with
    input := rest,
    line_nr := (st.nextNr : Int),
    nextNr := st.nextNr + 1,
    full_line := l }

/-- `iterGo` written through `iterStep` (definitional repackaging used by
the extension proofs). -/
theorem iterGo_eq (l : String) (rest : List String) (st : St) :
    iterGo (l :: rest) st =
      (if l = would_open_namespace st.ns || l = would_close_namespace st.ns
       then iterGo rest
         { iterStep st l rest with
           trace := (iterStep st l rest).trace ++ [(false, l)] }
       else (some l, { iterStep st l rest with pending := some l })) := rfl

/-- The `iter_lines` advance loop is a pull extension when no line is
pending. -/
theorem iterGo_ext :
    ∀ (inp : List String) (st : St), st.input = inp → st.pending = none →
      ∃ tr, PullExt st (iterGo inp st).2 tr := by
  intro inp
  induction inp with
  | nil =>
      intro st hin hp
      refine ⟨[], by simp [iterGo], by simp [iterGo, keptFrags], ?_, rfl, rfl,
        rfl, rfl, rfl, ?_, ?_⟩
      · simp [iterGo, pendL, hp, hin]
      · intro r hr
        rw [hp] at hr
        exact absurd hr (by simp)
      · intro r q tr2 hr
        rw [hp] at hr
        exact absurd hr (by simp)
  | cons l rest ih =>
      intro st hin hp
      rw [iterGo_eq]
      by_cases hex : l = would_open_namespace st.ns || l = would_close_namespace st.ns
      · rw [if_pos hex]
        have hstep : PullExt st
            { iterStep st l rest with
              trace := (iterStep st l rest).trace ++ [(false, l)] }
            [(false, l)] := by
          refine ⟨by simp [iterStep], by simp [iterStep, keptFrags], ?_, rfl,
            rfl, rfl, rfl, rfl, ?_, ?_⟩
          · simp [iterStep, pendL, hp, hin]
          · intro r hr; rw [hp] at hr; exact absurd hr (by simp)
          · intro r q tr2 hr; rw [hp] at hr; exact absurd hr (by simp)
        obtain ⟨tr2, hrec⟩ := ih
          { iterStep st l rest with
            trace := (iterStep st l rest).trace ++ [(false, l)] }
          (by simp [iterStep]) (by simp [iterStep, hp])
        exact ⟨(false, l) :: tr2, hstep.pcomp hrec⟩
      · rw [if_neg hex]
        refine ⟨[], by simp [iterStep], by simp [iterStep, keptFrags], ?_, rfl,
          rfl, rfl, rfl, rfl, ?_, ?_⟩
        · simp [iterStep, pendL, hp, hin]
        · intro r hr; rw [hp] at hr; exact absurd hr (by simp)
        · intro r q tr2 hr; rw [hp] at hr; exact absurd hr (by simp)

/-- One pull from `iter_lines` is a pull extension. -/
theorem iterSrc_ext (fuel : Nat) (st : St) :
    ∃ tr, PullExt st (PRes.stOf (iterSrc fuel st)) tr := by
  obtain ⟨trR, hR, hpn⟩ := resolvePending_ext st
  obtain ⟨trG, hG⟩ := iterGo_ext ((resolvePending st).input) (resolvePending st)
    rfl hpn
  have hIter : PRes.stOf (iterSrc fuel st) =
      (iterGo (resolvePending st).input (resolvePending st)).2 := by
    unfold iterSrc iter_lines PRes.stOf
    rcases hgo : iterGo (resolvePending st).input (resolvePending st) with ⟨l, st2⟩
    rw [resolvePending_input] at hgo
    rw [hgo]
  rw [hIter]
  exact ⟨trR ++ trG, hR.pcomp hG⟩

/-- A source all of whose pulls are pull extensions. -/
def SrcExt (src : Src) : Prop :=
  ∀ (fuel : Nat) (st : St), ∃ tr, PullExt st (PRes.stOf (src fuel st)) tr

/-- `iter_lines` is an extending source. -/
theorem iterSrc_srcExt : SrcExt iterSrc := fun fuel st => iterSrc_ext fuel st

/-- The continuation-joining loop preserves the extension property. -/
theorem fecJoin_ext (src : Src) (hsrc : SrcExt src) :
    ∀ (fuel : Nat) (l : String) (st : St),
      ∃ tr, PullExt st (PRes.stOf (fecJoin src fuel l st)) tr := by
  intro fuel
  induction fuel with
  | zero =>
      intro l st
      exact ⟨[], by simp only [fecJoin, PRes.stOf]; exact PullExt.pnil st⟩
  | succ f ih =>
      intro l st
      by_cases hbs : endsWithBackslash l = true
      · obtain ⟨tr1, h1⟩ := hsrc (f + 1) st
        rcases hres : src (f + 1) st with ⟨lopt, st1⟩ | ⟨k, st1⟩ | st1 <;>
          rw [hres] at h1 <;> simp only [PRes.stOf] at h1
        · rcases lopt with _ | nx
          · exact ⟨tr1, by simp only [fecJoin, hbs, if_pos, hres, PRes.stOf]; exact h1⟩
          · obtain ⟨tr2, h2⟩ := ih (pyStrip (dropLastChar l) ++ pyStrip nx) st1
            refine ⟨tr1 ++ tr2, ?_⟩
            have := h1.pcomp h2
            simpa only [fecJoin, hbs, if_pos, hres] using this
        · exact ⟨tr1, by simp only [fecJoin, hbs, if_pos, hres, PRes.stOf]; exact h1⟩
        · exact ⟨tr1, by simp only [fecJoin, hbs, if_pos, hres, PRes.stOf]; exact h1⟩
      · refine ⟨[], ?_⟩
        simp only [fecJoin, hbs, PRes.stOf]
        simp only [if_neg, Bool.false_eq_true, not_false_iff, PRes.stOf]
        exact PullExt.pnil st

/-- The blank/comment-dropping loop preserves the extension property. -/
theorem fecGo_ext (src : Src) (hsrc : SrcExt src) :
    ∀ (fuel : Nat) (st : St),
      ∃ tr, PullExt st (PRes.stOf (fecGo src fuel st)) tr := by
  intro fuel
  induction fuel with
  | zero =>
      intro st
      exact ⟨[], by simp only [fecGo, PRes.stOf]; exact PullExt.pnil st⟩
  | succ f ih =>
      intro st
      obtain ⟨tr1, h1⟩ := hsrc (f + 1) st
      rcases hres : src (f + 1) st with ⟨lopt, st1⟩ | ⟨k, st1⟩ | st1 <;>
        rw [hres] at h1 <;> simp only [PRes.stOf] at h1
      · rcases lopt with _ | l
        · exact ⟨tr1, by simp only [fecGo, hres, PRes.stOf]; exact h1⟩
        · by_cases hskip : pyStrip l = "" || strStarts (pyStrip l) "//"
          · obtain ⟨tr2, h2⟩ := ih st1
            refine ⟨tr1 ++ tr2, ?_⟩
            have := h1.pcomp h2
            simpa only [fecGo, hres, hskip, if_pos] using this
          · obtain ⟨tr2, h2⟩ := fecJoin_ext src hsrc (f + 1) (pyStrip l) st1
            refine ⟨tr1 ++ tr2, ?_⟩
            have := h1.pcomp h2
            have hskip' : (pyStrip l = "" || strStarts (pyStrip l) "//") = false := by
              simpa using hskip
            simpa only [fecGo, hres, hskip', Bool.false_eq_true, if_false] using this
      · exact ⟨tr1, by simp only [fecGo, hres, PRes.stOf]; exact h1⟩
      · exact ⟨tr1, by simp only [fecGo, hres, PRes.stOf]; exact h1⟩

/-- `filter_empty_or_comment` preserves the extension property. -/
theorem filter_empty_or_comment_ext (src : Src) (hsrc : SrcExt src) :
    SrcExt (filter_empty_or_comment src) := by
  intro fuel st
  exact fecGo_ext src hsrc fuel st

/-- The block-comment scan preserves the extension property. -/
theorem fcbScan_ext (src : Src) (hsrc : SrcExt src) :
    ∀ (fuel : Nat) (l : String) (st : St),
      ∃ tr, PullExt st (PRes.stOf (fcbScan src fuel l st)) tr := by
  intro fuel
  induction fuel with
  | zero =>
      intro l st
      exact ⟨[], by simp only [fcbScan, PRes.stOf]; exact PullExt.pnil st⟩
  | succ f ih =>
      intro l st
      rcases hcc : afterCommentClose l.toList with _ | rest
      · obtain ⟨tr1, h1⟩ := hsrc (f + 1) st
        rcases hres : src (f + 1) st with ⟨lopt, st1⟩ | ⟨k, st1⟩ | st1 <;>
          rw [hres] at h1 <;> simp only [PRes.stOf] at h1
        · rcases lopt with _ | l2
          · exact ⟨tr1, by simp only [fcbScan, hcc, hres, PRes.stOf]; exact h1⟩
          · obtain ⟨tr2, h2⟩ := ih l2 st1
            refine ⟨tr1 ++ tr2, ?_⟩
            have := h1.pcomp h2
            simpa only [fcbScan, hcc, hres] using this
        · exact ⟨tr1, by simp only [fcbScan, hcc, hres, PRes.stOf]; exact h1⟩
        · exact ⟨tr1, by simp only [fcbScan, hcc, hres, PRes.stOf]; exact h1⟩
      · exact ⟨[], by simp only [fcbScan, hcc, PRes.stOf]; exact PullExt.pnil st⟩

/-- `filter_comment_block` preserves the extension property. -/
theorem filter_comment_block_ext (src : Src) (hsrc : SrcExt src) :
    SrcExt (filter_comment_block src) := by
  intro fuel st
  obtain ⟨tr1, h1⟩ := hsrc fuel st
  rcases hres : src fuel st with ⟨lopt, st1⟩ | ⟨k, st1⟩ | st1 <;>
    rw [hres] at h1 <;> simp only [PRes.stOf] at h1
  · rcases lopt with _ | l
    · exact ⟨tr1, by simp only [filter_comment_block, hres, PRes.stOf]; exact h1⟩
    · by_cases hbc : strStarts l "/*" = true
      · obtain ⟨tr2, h2⟩ := fcbScan_ext src hsrc fuel (dropTwoChars l) st1
        refine ⟨tr1 ++ tr2, ?_⟩
        have := h1.pcomp h2
        simpa only [filter_comment_block, hres, fcbProcess, hbc, if_pos] using this
      · refine ⟨tr1, ?_⟩
        have hbc' : strStarts l "/*" = false := by simpa using hbc
        simp only [filter_comment_block, hres, fcbProcess, hbc',
          Bool.false_eq_true, if_false, PRes.stOf]
        exact h1
  · exact ⟨tr1, by simp only [filter_comment_block, hres, PRes.stOf]; exact h1⟩
  · exact ⟨tr1, by simp only [filter_comment_block, hres, PRes.stOf]; exact h1⟩

/-- A state change touching only fields not tracked by `PullExt`
(messages, guard flags, filter mode, line bookkeeping) is a trivial pull
extension. -/
theorem PullExt.untracked {st st' : St}
    (h1 : st'.trace = st.trace) (h2 : st'.out_buf = st.out_buf)
    (h3 : st'.pending = st.pending) (h4 : st'.input = st.input)
    (h5 : st'.drop_lines = st.drop_lines) (h6 : st'.ns = st.ns)
    (h7 : st'.errorsMode = st.errorsMode) (h8 : st'.origLines = st.origLines)
    (h9 : st'.namespace_active = st.namespace_active)
    (h10 : st'.status = st.status) : PullExt st st' [] := by
  refine ⟨by simp [h1], by simp [h2, keptFrags], ?_, h6, h7, h8, h9, h10, ?_, ?_⟩
  · simp [pendL, h3, h4]
  · intro r hp _
    exact ⟨h3.trans hp, h5⟩
  · intro r q tr2 _ htr
    exact absurd htr (by simp)

/-- `filter_include_guard` preserves the extension property. -/
theorem filter_include_guard_ext (src : Src) (hsrc : SrcExt src) :
    SrcExt (filter_include_guard src) := by
  intro fuel st
  rcases hfig : st.figMode with _ | q
  case broken =>
    rcases q with _ | ⟨q0, qs⟩
    · obtain ⟨tr1, h1⟩ := hsrc fuel st
      exact ⟨tr1, by simp only [filter_include_guard, hfig]; exact h1⟩
    · refine ⟨[], ?_⟩
      simp only [filter_include_guard, hfig, PRes.stOf]
      exact PullExt.untracked rfl rfl rfl rfl rfl rfl rfl rfl rfl rfl
  case normal =>
    obtain ⟨tr1, h1⟩ := hsrc fuel st
    rcases hres : src fuel st with ⟨lopt, st1⟩ | ⟨k, st1⟩ | st1 <;>
      rw [hres] at h1 <;> simp only [PRes.stOf] at h1
    · rcases lopt with _ | l
      · exact ⟨tr1, by simp only [filter_include_guard, hfig, hres, PRes.stOf]; exact h1⟩
      · by_cases hg : st1.include_guard = true
        · exact ⟨tr1, by simp only [filter_include_guard, hfig, hres, hg,
            if_pos, PRes.stOf]; exact h1⟩
        · have hg' : st1.include_guard = false := by simpa using hg
          rcases hnm : re_ifndef l with _ | nm
          · exact ⟨tr1, by simp only [filter_include_guard, hfig, hres, hg',
              Bool.false_eq_true, if_false, hnm, PRes.stOf]; exact h1⟩
          · obtain ⟨tr2, h2⟩ := hsrc fuel st1
            rcases hres2 : src fuel st1 with ⟨lopt2, st2⟩ | ⟨k2, st2⟩ | st2 <;>
              rw [hres2] at h2 <;> simp only [PRes.stOf] at h2
            · rcases lopt2 with _ | ld
              · exact ⟨tr1 ++ tr2, by
                  simp only [filter_include_guard, hfig, hres, hg',
                    Bool.false_eq_true, if_false, hnm, hres2, PRes.stOf]
                  exact h1.pcomp h2⟩
              · by_cases hdef : re_define nm ld = true
                · have hmid : PullExt st2
                      { st2 with include_guard := true, guardEver := true } [] :=
                    PullExt.untracked rfl rfl rfl rfl rfl rfl rfl rfl rfl rfl
                  obtain ⟨tr3, h3⟩ := hsrc fuel
                    { st2 with include_guard := true, guardEver := true }
                  rcases hres3 : src fuel
                      { st2 with include_guard := true, guardEver := true } with
                      ⟨lopt3, st3⟩ | ⟨k3, st3⟩ | st3 <;>
                    rw [hres3] at h3 <;> simp only [PRes.stOf] at h3
                  · rcases lopt3 with _ | l2 <;>
                    · refine ⟨tr1 ++ (tr2 ++ ([] ++ tr3)), ?_⟩
                      have := h1.pcomp (h2.pcomp (hmid.pcomp h3))
                      simp only [filter_include_guard, hfig, hres, hg',
                        Bool.false_eq_true, if_false, hnm, hres2, hdef, if_pos,
                        hres3, PRes.stOf]
                      exact this
                  · refine ⟨tr1 ++ (tr2 ++ ([] ++ tr3)), ?_⟩
                    have := h1.pcomp (h2.pcomp (hmid.pcomp h3))
                    simp only [filter_include_guard, hfig, hres, hg',
                      Bool.false_eq_true, if_false, hnm, hres2, hdef, if_pos,
                      hres3, PRes.stOf]
                    exact this
                  · refine ⟨tr1 ++ (tr2 ++ ([] ++ tr3)), ?_⟩
                    have := h1.pcomp (h2.pcomp (hmid.pcomp h3))
                    simp only [filter_include_guard, hfig, hres, hg',
                      Bool.false_eq_true, if_false, hnm, hres2, hdef, if_pos,
                      hres3, PRes.stOf]
                    exact this
                · have hdef' : re_define nm ld = false := by simpa using hdef
                  have hmid : PullExt st2
                      { st2 with
                        msgs := st2.msgs ++ [brokenGuardMsg nm st2.line_nr l ld],
                        figMode := .broken [ld] } [] :=
                    PullExt.untracked rfl rfl rfl rfl rfl rfl rfl rfl rfl rfl
                  refine ⟨tr1 ++ (tr2 ++ []), ?_⟩
                  have := h1.pcomp (h2.pcomp hmid)
                  simp only [filter_include_guard, hfig, hres, hg',
                    Bool.false_eq_true, if_false, hnm, hres2, hdef',
                    PRes.stOf]
                  exact this
            · exact ⟨tr1 ++ tr2, by
                simp only [filter_include_guard, hfig, hres, hg',
                  Bool.false_eq_true, if_false, hnm, hres2, PRes.stOf]
                exact h1.pcomp h2⟩
            · exact ⟨tr1 ++ tr2, by
                simp only [filter_include_guard, hfig, hres, hg',
                  Bool.false_eq_true, if_false, hnm, hres2, PRes.stOf]
                exact h1.pcomp h2⟩
    · exact ⟨tr1, by simp only [filter_include_guard, hfig, hres, PRes.stOf]; exact h1⟩
    · exact ⟨tr1, by simp only [filter_include_guard, hfig, hres, PRes.stOf]; exact h1⟩

/-- The noise-dropping loop preserves the extension property. -/
theorem fpGo_ext (src : Src) (hsrc : SrcExt src) :
    ∀ (fuel : Nat) (st : St),
      ∃ tr, PullExt st (PRes.stOf (fpGo src fuel st)) tr := by
  intro fuel
  induction fuel with
  | zero =>
      intro st
      exact ⟨[], by simp only [fpGo, PRes.stOf]; exact PullExt.pnil st⟩
  | succ f ih =>
      intro st
      obtain ⟨tr1, h1⟩ := hsrc (f + 1) st
      rcases hres : src (f + 1) st with ⟨lopt, st1⟩ | ⟨k, st1⟩ | st1 <;>
        rw [hres] at h1 <;> simp only [PRes.stOf] at h1
      · rcases lopt with _ | l
        · exact ⟨tr1, by simp only [fpGo, hres, PRes.stOf]; exact h1⟩
        · by_cases hn : re_noise l = true
          · obtain ⟨tr2, h2⟩ := ih st1
            refine ⟨tr1 ++ tr2, ?_⟩
            have := h1.pcomp h2
            simpa only [fpGo, hres, hn, if_pos] using this
          · have hn' : re_noise l = false := by simpa using hn
            exact ⟨tr1, by simp only [fpGo, hres, hn', Bool.false_eq_true,
              if_false, PRes.stOf]; exact h1⟩
      · exact ⟨tr1, by simp only [fpGo, hres, PRes.stOf]; exact h1⟩
      · exact ⟨tr1, by simp only [fpGo, hres, PRes.stOf]; exact h1⟩

/-- Every pull of the full statement pipeline is a pull extension. -/
theorem code_lines_ext : SrcExt code_lines := by
  have h1 : SrcExt (filter_empty_or_comment iterSrc) :=
    filter_empty_or_comment_ext iterSrc iterSrc_srcExt
  have h2 : SrcExt (filter_comment_block (filter_empty_or_comment iterSrc)) :=
    filter_comment_block_ext _ h1
  have h3 : SrcExt (filter_empty_or_comment (filter_comment_block
      (filter_empty_or_comment iterSrc))) :=
    filter_empty_or_comment_ext _ h2
  have h4 : SrcExt (filter_include_guard (filter_empty_or_comment
      (filter_comment_block (filter_empty_or_comment iterSrc)))) :=
    filter_include_guard_ext _ h3
  intro fuel st
  exact fpGo_ext _ h4 fuel st

/-- A source whose every pull with positive fuel, a pending line and
`drop_lines = 0` (in normal guard-filter mode) starts its trace by
keeping that pending line. -/
def SrcFirst (src : Src) : Prop :=
  ∀ (f : Nat) (st : St) (r : String),
    st.pending = some r → st.drop_lines = 0 → st.figMode = FigMode.normal →
    ∃ tr2, (PRes.stOf (src (f + 1) st)).trace = st.trace ++ (true, r) :: tr2

/-- `iter_lines` resolves the pending line first. -/
theorem iterSrc_first : SrcFirst iterSrc := by
  intro f st r hp hd _
  have hres : resolvePending st =
      { st with
        pending := none,
        out_buf := st.out_buf ++ [Frag.orig r],
        trace := st.trace ++ [(true, r)] } := by
    unfold resolvePending
    rw [hp]
    simp [hd]
  obtain ⟨trG, hG⟩ := iterGo_ext (resolvePending st).input (resolvePending st)
    rfl (by rw [hres])
  have hIter : PRes.stOf (iterSrc (f + 1) st) =
      (iterGo (resolvePending st).input (resolvePending st)).2 := by
    unfold iterSrc iter_lines PRes.stOf
    rcases hgo : iterGo (resolvePending st).input (resolvePending st) with ⟨l, st2⟩
    rw [resolvePending_input] at hgo
    rw [hgo]
  refine ⟨trG, ?_⟩
  rw [hIter, hG.trace_eq, hres]
  simp

/-- The blank/comment filter resolves the pending line first. -/
theorem fecGo_first (src : Src) (hsrc : SrcExt src) (hfst : SrcFirst src) :
    SrcFirst (fecGo src) := by
  intro f st r hp hd hfm
  obtain ⟨t2, h2⟩ := hfst f st r hp hd hfm
  rcases hres : src (f + 1) st with ⟨lopt, st1⟩ | ⟨k, st1⟩ | st1 <;>
    rw [hres] at h2 <;> simp only [PRes.stOf] at h2
  · rcases lopt with _ | l
    · exact ⟨t2, by simp only [fecGo, hres, PRes.stOf]; exact h2⟩
    · by_cases hskip : pyStrip l = "" || strStarts (pyStrip l) "//"
      · obtain ⟨trX, hX⟩ := fecGo_ext src hsrc f st1
        refine ⟨t2 ++ trX, ?_⟩
        simp only [fecGo, hres, hskip, if_pos]
        rw [hX.trace_eq, h2]
        simp
      · have hskip' : (pyStrip l = "" || strStarts (pyStrip l) "//") = false := by
          simpa using hskip
        obtain ⟨trX, hX⟩ := fecJoin_ext src hsrc (f + 1) (pyStrip l) st1
        refine ⟨t2 ++ trX, ?_⟩
        simp only [fecGo, hres, hskip', Bool.false_eq_true, if_false]
        rw [hX.trace_eq, h2]
        simp
  · exact ⟨t2, by simp only [fecGo, hres, PRes.stOf]; exact h2⟩
  · exact ⟨t2, by simp only [fecGo, hres, PRes.stOf]; exact h2⟩

/-- The block-comment filter resolves the pending line first. -/
theorem fcb_first (src : Src) (hsrc : SrcExt src) (hfst : SrcFirst src) :
    SrcFirst (filter_comment_block src) := by
  intro f st r hp hd hfm
  obtain ⟨t2, h2⟩ := hfst f st r hp hd hfm
  rcases hres : src (f + 1) st with ⟨lopt, st1⟩ | ⟨k, st1⟩ | st1 <;>
    rw [hres] at h2 <;> simp only [PRes.stOf] at h2
  · rcases lopt with _ | l
    · exact ⟨t2, by simp only [filter_comment_block, hres, PRes.stOf]; exact h2⟩
    · by_cases hbc : strStarts l "/*" = true
      · obtain ⟨trX, hX⟩ := fcbScan_ext src hsrc (f + 1) (dropTwoChars l) st1
        refine ⟨t2 ++ trX, ?_⟩
        simp only [filter_comment_block, hres, fcbProcess, hbc, if_pos]
        rw [hX.trace_eq, h2]
        simp
      · have hbc' : strStarts l "/*" = false := by simpa using hbc
        exact ⟨t2, by simp only [filter_comment_block, hres, fcbProcess, hbc',
          Bool.false_eq_true, if_false, PRes.stOf]; exact h2⟩
  · exact ⟨t2, by simp only [filter_comment_block, hres, PRes.stOf]; exact h2⟩
  · exact ⟨t2, by simp only [filter_comment_block, hres, PRes.stOf]; exact h2⟩

/-- The include-guard filter in normal mode resolves the pending line
first. -/
theorem fig_first (src : Src) (hsrc : SrcExt src) (hfst : SrcFirst src) :
    SrcFirst (filter_include_guard src) := by
  intro f st r hp hd hfm
  obtain ⟨t2, h2⟩ := hfst f st r hp hd hfm
  rcases hres : src (f + 1) st with ⟨lopt, st1⟩ | ⟨k, st1⟩ | st1 <;>
    rw [hres] at h2 <;> simp only [PRes.stOf] at h2
  · rcases lopt with _ | l
    · exact ⟨t2, by simp only [filter_include_guard, hfm, hres, PRes.stOf]; exact h2⟩
    · by_cases hg : st1.include_guard = true
      · exact ⟨t2, by simp only [filter_include_guard, hfm, hres, hg, if_pos,
          PRes.stOf]; exact h2⟩
      · have hg' : st1.include_guard = false := by simpa using hg
        rcases hnm : re_ifndef l with _ | nm
        · exact ⟨t2, by simp only [filter_include_guard, hfm, hres, hg',
            Bool.false_eq_true, if_false, hnm, PRes.stOf]; exact h2⟩
        · obtain ⟨tr2, hx2⟩ := hsrc (f + 1) st1
          rcases hres2 : src (f + 1) st1 with ⟨lopt2, st2⟩ | ⟨k2, st2⟩ | st2 <;>
            rw [hres2] at hx2 <;> simp only [PRes.stOf] at hx2
          · rcases lopt2 with _ | ld
            · refine ⟨t2 ++ tr2, ?_⟩
              simp only [filter_include_guard, hfm, hres, hg',
                Bool.false_eq_true, if_false, hnm, hres2, PRes.stOf]
              rw [hx2.trace_eq, h2]
              simp
            · by_cases hdef : re_define nm ld = true
              · obtain ⟨tr3, hx3⟩ := hsrc (f + 1)
                  { st2 with include_guard := true, guardEver := true }
                rcases hres3 : src (f + 1)
                    { st2 with include_guard := true, guardEver := true } with
                    ⟨lopt3, st3⟩ | ⟨k3, st3⟩ | st3 <;>
                  rw [hres3] at hx3 <;> simp only [PRes.stOf] at hx3
                · rcases lopt3 with _ | l2 <;>
                  · refine ⟨t2 ++ (tr2 ++ tr3), ?_⟩
                    simp only [filter_include_guard, hfm, hres, hg',
                      Bool.false_eq_true, if_false, hnm, hres2, hdef, if_pos,
                      hres3, PRes.stOf]
                    rw [hx3.trace_eq]
                    simp only
                    rw [hx2.trace_eq, h2]
                    simp
                · refine ⟨t2 ++ (tr2 ++ tr3), ?_⟩
                  simp only [filter_include_guard, hfm, hres, hg',
                    Bool.false_eq_true, if_false, hnm, hres2, hdef, if_pos,
                    hres3, PRes.stOf]
                  rw [hx3.trace_eq]
                  simp only
                  rw [hx2.trace_eq, h2]
                  simp
                · refine ⟨t2 ++ (tr2 ++ tr3), ?_⟩
                  simp only [filter_include_guard, hfm, hres, hg',
                    Bool.false_eq_true, if_false, hnm, hres2, hdef, if_pos,
                    hres3, PRes.stOf]
                  rw [hx3.trace_eq]
                  simp only
                  rw [hx2.trace_eq, h2]
                  simp
              · have hdef' : re_define nm ld = false := by simpa using hdef
                refine ⟨t2 ++ tr2, ?_⟩
                simp only [filter_include_guard, hfm, hres, hg',
                  Bool.false_eq_true, if_false, hnm, hres2, hdef',
                  PRes.stOf]
                rw [hx2.trace_eq, h2]
                simp
          · refine ⟨t2 ++ tr2, ?_⟩
            simp only [filter_include_guard, hfm, hres, hg',
              Bool.false_eq_true, if_false, hnm, hres2, PRes.stOf]
            rw [hx2.trace_eq, h2]
            simp
          · refine ⟨t2 ++ tr2, ?_⟩
            simp only [filter_include_guard, hfm, hres, hg',
              Bool.false_eq_true, if_false, hnm, hres2, PRes.stOf]
            rw [hx2.trace_eq, h2]
            simp
  · exact ⟨t2, by simp only [filter_include_guard, hfm, hres, PRes.stOf]; exact h2⟩
  · exact ⟨t2, by simp only [filter_include_guard, hfm, hres, PRes.stOf]; exact h2⟩

/-- The noise filter resolves the pending line first. -/
theorem fpGo_first (src : Src) (hsrc : SrcExt src) (hfst : SrcFirst src) :
    SrcFirst (fpGo src) := by
  intro f st r hp hd hfm
  obtain ⟨t2, h2⟩ := hfst f st r hp hd hfm
  rcases hres : src (f + 1) st with ⟨lopt, st1⟩ | ⟨k, st1⟩ | st1 <;>
    rw [hres] at h2 <;> simp only [PRes.stOf] at h2
  · rcases lopt with _ | l
    · exact ⟨t2, by simp only [fpGo, hres, PRes.stOf]; exact h2⟩
    · by_cases hn : re_noise l = true
      · obtain ⟨trX, hX⟩ := fpGo_ext src hsrc f st1
        refine ⟨t2 ++ trX, ?_⟩
        simp only [fpGo, hres, hn, if_pos]
        rw [hX.trace_eq, h2]
        simp
      · have hn' : re_noise l = false := by simpa using hn
        exact ⟨t2, by simp only [fpGo, hres, hn', Bool.false_eq_true,
          if_false, PRes.stOf]; exact h2⟩
  · exact ⟨t2, by simp only [fpGo, hres, PRes.stOf]; exact h2⟩
  · exact ⟨t2, by simp only [fpGo, hres, PRes.stOf]; exact h2⟩

/-- The full pipeline resolves the pending line first (in normal
guard-filter mode with nothing marked for drop). -/
theorem code_lines_first : SrcFirst code_lines := by
  have h1 : SrcExt (filter_empty_or_comment iterSrc) :=
    filter_empty_or_comment_ext iterSrc iterSrc_srcExt
  have h2 : SrcExt (filter_comment_block (filter_empty_or_comment iterSrc)) :=
    filter_comment_block_ext _ h1
  have h3 : SrcExt (filter_empty_or_comment (filter_comment_block
      (filter_empty_or_comment iterSrc))) :=
    filter_empty_or_comment_ext _ h2
  have h4 : SrcExt (filter_include_guard (filter_empty_or_comment
      (filter_comment_block (filter_empty_or_comment iterSrc)))) :=
    filter_include_guard_ext _ h3
  have f1 : SrcFirst (filter_empty_or_comment iterSrc) :=
    fecGo_first iterSrc iterSrc_srcExt iterSrc_first
  have f2 : SrcFirst (filter_comment_block (filter_empty_or_comment iterSrc)) :=
    fcb_first _ h1 f1
  have f3 : SrcFirst (filter_empty_or_comment (filter_comment_block
      (filter_empty_or_comment iterSrc))) :=
    fecGo_first _ h2 f2
  have f4 : SrcFirst (filter_include_guard (filter_empty_or_comment
      (filter_comment_block (filter_empty_or_comment iterSrc)))) :=
    fig_first _ h3 f3
  exact fpGo_first _ h4 f4

/-- The `consume_if` loop only performs pipeline pulls and depth
bookkeeping, so it is a pull extension. -/
theorem consumeGo_ext :
    ∀ (fuel : Nat) (l : String) (st : St) (incl code : Option CTup)
      (stmts : List String) (lopt : Option String) (incl' code' : Option CTup)
      (tmp : List Frag) (stmts' : List String) (st' : St),
      consumeGo fuel l st incl code stmts = .ok lopt incl' code' tmp stmts' st' →
      ∃ tr, PullExt st st' tr := by
  intro fuel
  induction fuel with
  | zero =>
      intro l st incl code stmts lopt incl' code' tmp stmts' st' h
      simp [consumeGo] at h
  | succ f ih =>
      intro l st incl code stmts lopt incl' code' tmp stmts' st' h
      unfold consumeGo at h
      by_cases hd : st.nesting_depth > 0
      · rw [if_pos hd] at h
        have hmid : PullExt st
            { st with nesting_depth :=
                (classifyStmt l st.line_nr st.nesting_depth incl code).1 } [] :=
          PullExt.untracked rfl rfl rfl rfl rfl rfl rfl rfl rfl rfl
        obtain ⟨trC, hC⟩ := code_lines_ext (f + 1)
          { st with nesting_depth :=
              (classifyStmt l st.line_nr st.nesting_depth incl code).1 }
        rcases hres : code_lines (f + 1)
            { st with nesting_depth :=
                (classifyStmt l st.line_nr st.nesting_depth incl code).1 } with
            ⟨lopt2, st2⟩ | ⟨k, st2⟩ | st2 <;>
          rw [hres] at h hC <;> simp only [PRes.stOf] at hC <;> try simp only at h
        · rcases lopt2 with _ | l2
          · injection h with e1 e2 e3 e4 e5 e6
            subst e6
            exact ⟨[] ++ trC, hmid.pcomp hC⟩
          · obtain ⟨trR, hR⟩ := ih l2 st2
              (classifyStmt l st.line_nr st.nesting_depth incl code).2.1
              (classifyStmt l st.line_nr st.nesting_depth incl code).2.2
              (stmts ++ [l]) lopt incl' code' tmp stmts' st' h
            exact ⟨([] ++ trC) ++ trR, (hmid.pcomp hC).pcomp hR⟩
        · exact absurd h (by simp)
        · exact absurd h (by simp)
      · rw [if_neg hd] at h
        injection h with e1 e2 e3 e4 e5 e6
        subst e6
        exact ⟨[], PullExt.pnil st⟩

/-- `consume_if` collects into its private buffer exactly the kept
original lines it consumed, restores the shared output buffer, and
leaves the namespace state, status and configuration untouched; when a
line was pending at entry it is the first consumed line (kept when
nothing was marked for drop), and in normal guard-filter mode the
private buffer then starts with exactly that line. -/
theorem consume_if_ext (fuel : Nat) (st : St) (lopt : Option String)
    (incl code : Option CTup) (tmp : List Frag) (stmts : List String)
    (st' : St) (h : consume_if fuel st = .ok lopt incl code tmp stmts st') :
    ∃ tr, st'.trace = st.trace ++ tr ∧
      tmp = keptFrags tr ∧
      tr.map Prod.snd ++ pendL st' ++ st'.input = pendL st ++ st.input ∧
      st'.out_buf = st.out_buf ∧
      st'.namespace_active = st.namespace_active ∧
      st'.status = st.status ∧
      st'.ns = st.ns ∧ st'.errorsMode = st.errorsMode ∧
      st'.origLines = st.origLines ∧
      (∀ r p tr2, st.pending = some r → tr = p :: tr2 →
        p.2 = r ∧ (st.drop_lines = 0 → p.1 = true)) ∧
      (∀ r, st.pending = some r → st.drop_lines = 0 →
        st.figMode = FigMode.normal → ∃ tr2, tr = (true, r) :: tr2) := by
  rcases fuel with _ | f
  · exact absurd h (by simp [consume_if, code_lines, filter_preprocessor, fpGo])
  unfold consume_if at h
  split at h
  case h_2 => simp at h
  case h_3 => simp at h
  case h_4 => simp at h
  case h_1 =>
    split at h
    case h_2 => simp at h
    case h_1 =>
      rename_i x1 l0 st1 hres x2 lopt2 incl2 code2 tmp2 stmts2 st2 hgo
      · injection h with e1 e2 e3 e4 e5 e6
        obtain ⟨trA, hA⟩ := code_lines_ext (f + 1)
          { st with out_buf := [], nesting_depth := 1 }
        rw [hres] at hA
        simp only [PRes.stOf] at hA
        obtain ⟨trB, hB⟩ := consumeGo_ext (f + 1) l0 st1 none none []
          lopt2 incl2 code2 tmp2 stmts2 st2 hgo
        have hcomp := hA.pcomp hB
        refine ⟨trA ++ trB, ?_, ?_, ?_, ?_, ?_, ?_, ?_, ?_, ?_, ?_, ?_⟩
        · rw [← e6]
          have := hcomp.trace_eq
          simpa using this
        · rw [← e4]
          have := hcomp.buf_eq
          simpa using this
        · have := hcomp.lines_eq
          rw [← e6]
          simpa [pendL] using this
        · rw [← e6]
        · rw [← e6]
          have := hcomp.na_eq
          simpa using this
        · rw [← e6]
          have := hcomp.status_eq
          simpa using this
        · rw [← e6]
          have := hcomp.ns_eq
          simpa using this
        · rw [← e6]
          have := hcomp.em_eq
          simpa using this
        · rw [← e6]
          have := hcomp.orig_eq
          simpa using this
        · intro r p tr2 hp htr
          exact hcomp.head_pend r p tr2 (by simpa using hp) htr
        · intro r hp hd hfm
          obtain ⟨t2, hfirst⟩ := code_lines_first f
            { st with out_buf := [], nesting_depth := 1 } r
            (by simpa using hp) (by simpa using hd) (by simpa using hfm)
          rw [hres] at hfirst
          simp only [PRes.stOf] at hfirst
          have htrA : st1.trace = st.trace ++ trA := by
            have := hA.trace_eq
            simpa using this
          rw [htrA] at hfirst
          simp at hfirst
          have heqA : trA = (true, r) :: t2 := hfirst
          exact ⟨t2 ++ trB, by rw [heqA]; simp⟩

/-- C2: while the namespace is inactive, a consumed conditional block
(from the `#if`-family opener to the matching `#endif`) behaves as
claimed.  First conjunct: `consume_if` returns in its private buffer
exactly the original raw lines it consumed (unaltered and in order, the
dropped ones excepted), restores the shared output buffer, leaves the
namespace state and status unchanged, and — in normal guard-filter mode
with the opener's raw line pending and nothing marked for drop — that
raw line is the buffer's first fragment.  Second conjunct: a block
classified without code (includes only, or nothing) leaves the state
unchanged and appends exactly the block's lines to the output.  Third
conjunct: a block classified with code only makes the engine append the
namespace-open marker immediately before the block's lines and activate
the namespace with the opening `#if` statement recorded as the
trigger. -/
theorem claim_C2 :
    (∀ (fuel : Nat) (st : St) (lopt : Option String) (incl code : Option CTup)
       (tmp : List Frag) (stmts : List String) (st' : St),
      consume_if fuel st = .ok lopt incl code tmp stmts st' →
      (∃ tr, tmp = keptFrags tr ∧ st'.trace = st.trace ++ tr ∧
        tr.map Prod.snd ++ pendL st' ++ st'.input = pendL st ++ st.input) ∧
      st'.out_buf = st.out_buf ∧
      st'.namespace_active = st.namespace_active ∧
      st'.status = st.status ∧
      (∀ r, st.pending = some r → st.drop_lines = 0 →
        st.figMode = FigMode.normal →
        ∃ rest, tmp = Frag.orig r :: rest)) ∧
    (∀ (firstIf : String) (firstNr : Int) (incl : Option CTup)
       (tmp : List Frag) (st1 : St),
      st1.namespace_active = none →
      handleIfResult firstIf firstNr incl none tmp st1 =
        .inl (some { st1 with out_buf := st1.out_buf ++ tmp })) ∧
    (∀ (firstIf : String) (firstNr : Int) (ct : CTup) (tmp : List Frag)
       (st1 : St),
      st1.namespace_active = none →
      handleIfResult firstIf firstNr none (some ct) tmp st1 =
        .inl (some
          { st1 with
            msgs := st1.msgs ++ [insertBeforeIfMsg firstIf firstNr ct],
            out_buf := st1.out_buf ++ [Frag.synth (open_namespace st1.ns)] ++ tmp,
            namespace_active := some (firstIf, firstNr) })) := by
  refine ⟨?_, ?_, ?_⟩
  · intro fuel st lopt incl code tmp stmts st' h
    obtain ⟨tr, htr, htmp, hlines, hbuf, hna, hstat, _, _, _, hhead, hfirst⟩ :=
      consume_if_ext fuel st lopt incl code tmp stmts st' h
    refine ⟨⟨tr, htmp, htr, hlines⟩, hbuf, hna, hstat, ?_⟩
    intro r hp hd hfm
    obtain ⟨t2, ht2⟩ := hfirst r hp hd hfm
    refine ⟨keptFrags t2, ?_⟩
    rw [htmp, ht2]
    simp [keptFrags]
  · intro firstIf firstNr incl tmp st1 hna
    cases incl <;> simp [handleIfResult, hna]
  · intro firstIf firstNr ct tmp st1 hna
    simp [handleIfResult, hna]

/-- Witness for `claim_C2`: the code-only branch at concrete arguments
(the engine opens the namespace just before a block whose only content
is `x;`). -/
theorem claim_C2_witness :
    handleIfResult "#if A" 1 none (some ("x;", 2, 1))
      [Frag.orig "#if A\n", Frag.orig "x;\n", Frag.orig "#endif\n"]
      (initSt ["#if A\n", "x;\n", "#endif\n"] "ns" false) =
      .inl (some
        { initSt ["#if A\n", "x;\n", "#endif\n"] "ns" false with
          msgs := [insertBeforeIfMsg "#if A" 1 ("x;", 2, 1)],
          out_buf := [Frag.synth (open_namespace "ns"), Frag.orig "#if A\n",
            Frag.orig "x;\n", Frag.orig "#endif\n"],
          namespace_active := some ("#if A", 1) }) := by
  have h := claim_C2.2.2 "#if A" 1 ("x;", 2, 1)
    [Frag.orig "#if A\n", Frag.orig "x;\n", Frag.orig "#endif\n"]
    (initSt ["#if A\n", "x;\n", "#endif\n"] "ns" false) (by rfl)
  simpa [initSt] using h

/-- Whether a fragment is an original input line. -/
def Frag.isOrig : Frag → Bool
  | .orig _ => true
  | .synth _ => false

/-- The original-line fragments of a buffer, in order. -/
def origFrags (buf : List Frag) : List Frag :=
  buf.filter Frag.isOrig

/-- The synthetic fragments the decision engine may append, as amended:
one of the two namespace markers, a `// ` diagnostic comment line, or the
trimmed re-emitted copy of a forward class declaration. -/
def AllowedSynth (ns s : String) : Prop :=
  s = open_namespace ns ∨ s = close_namespace ns ∨
  strStarts s "// " = true ∨
  ∃ l, (re_class_predec l).isSome ∧ s = l ++ "\n"

/-- The synthetic fragments C1 claims verbatim: markers and diagnostic
comments only (no clause for the re-emitted class declaration). -/
def AllowedSynthStated (ns s : String) : Prop :=
  s = open_namespace ns ∨ s = close_namespace ns ∨ strStarts s "// " = true

/-- Extension produced by one or more decision-engine steps: the buffer
grows by a block whose original fragments are exactly the kept lines of
the consumed trace and whose synthetic fragments are all allowed; the
consumed lines, new pending line and remaining input reassemble the old
pending line and input. -/
def StepExt (st st2 : St) : Prop :=
  ∃ delta tr, st2.out_buf = st.out_buf ++ delta ∧
    st2.trace = st.trace ++ tr ∧
    origFrags delta = keptFrags tr ∧
    (∀ x ∈ synthTexts delta, AllowedSynth st.ns x) ∧
    tr.map Prod.snd ++ pendL st2 ++ st2.input = pendL st ++ st.input ∧
    st2.ns = st.ns ∧ st2.origLines = st.origLines

/-- Every kept-lines buffer consists of original fragments only. -/
theorem origFrags_keptFrags (tr : List (Bool × String)) :
    origFrags (keptFrags tr) = keptFrags tr := by
  induction tr with
  | nil => simp [origFrags, keptFrags]
  | cons p ps ih =>
      rcases p with ⟨b, s⟩
      cases b <;> simp only [origFrags, keptFrags, List.filterMap_cons] at ih ⊢ <;>
        simp [List.filter_cons, Frag.isOrig, ih]

/-- A kept-lines buffer has no synthetic fragments. -/
theorem synthTexts_keptFrags (tr : List (Bool × String)) :
    synthTexts (keptFrags tr) = [] := by
  induction tr with
  | nil => simp [synthTexts, keptFrags]
  | cons p ps ih =>
      rcases p with ⟨b, s⟩
      cases b <;> simp only [synthTexts, keptFrags, List.filterMap_cons] at ih ⊢ <;>
        simp [ih]

/-- `origFrags` distributes over concatenation. -/
theorem origFrags_append (a b : List Frag) :
    origFrags (a ++ b) = origFrags a ++ origFrags b := by
  simp [origFrags, List.filter_append]

/-- `synthTexts` distributes over concatenation. -/
theorem synthTexts_append (a b : List Frag) :
    synthTexts (a ++ b) = synthTexts a ++ synthTexts b := by
  simp [synthTexts, List.filterMap_append]

/-- The trivial engine-step extension. -/
theorem StepExt.snil (st : St) : StepExt st st :=
  ⟨[], [], by simp, by simp, by simp [origFrags, keptFrags], by
    simp [synthTexts], by simp, rfl, rfl⟩

/-- Engine-step extensions compose. -/
theorem StepExt.scomp {st1 st2 st3 : St} (hA : StepExt st1 st2)
    (hB : StepExt st2 st3) : StepExt st1 st3 := by
  obtain ⟨dA, tA, bufA, trA, ogA, synA, linA, nsA, olA⟩ := hA
  obtain ⟨dB, tB, bufB, trB, ogB, synB, linB, nsB, olB⟩ := hB
  refine ⟨dA ++ dB, tA ++ tB, ?_, ?_, ?_, ?_, ?_, ?_, ?_⟩
  · rw [bufB, bufA, List.append_assoc]
  · rw [trB, trA, List.append_assoc]
  · rw [origFrags_append, keptFrags_append, ogA, ogB]
  · intro x hx
    rw [synthTexts_append] at hx
    rcases List.mem_append.mp hx with hx | hx
    · exact synA x hx
    · rw [← nsA]
      exact synB x hx
  · calc (tA ++ tB).map Prod.snd ++ pendL st3 ++ st3.input
        = tA.map Prod.snd ++ (tB.map Prod.snd ++ pendL st3 ++ st3.input) := by
          simp [List.append_assoc]
      _ = tA.map Prod.snd ++ (pendL st2 ++ st2.input) := by rw [linB]
      _ = pendL st1 ++ st1.input := by rw [← List.append_assoc]; exact linA
  · rw [nsB, nsA]
  · rw [olB, olA]

/-- A pipeline pull extension is an engine-step extension. -/
theorem StepExt.ofPull {st st2 : St} {tr : List (Bool × String)}
    (h : PullExt st st2 tr) : StepExt st st2 := by
  refine ⟨keptFrags tr, tr, h.buf_eq, h.trace_eq, origFrags_keptFrags tr, ?_,
    h.lines_eq, h.ns_eq, h.orig_eq⟩
  intro x hx
  rw [synthTexts_keptFrags] at hx
  exact absurd hx (by simp)

/-- A state change that only appends allowed synthetic fragments (and
touches untracked engine fields) is an engine-step extension. -/
theorem StepExt.synths {st st2 : St} (ss : List String)
    (hbuf : st2.out_buf = st.out_buf ++ ss.map Frag.synth)
    (hall : ∀ x ∈ ss, AllowedSynth st.ns x)
    (htr : st2.trace = st.trace)
    (hpend : st2.pending = st.pending) (hin : st2.input = st.input)
    (hns : st2.ns = st.ns) (hol : st2.origLines = st.origLines) :
    StepExt st st2 := by
  refine ⟨ss.map Frag.synth, [], hbuf, by simp [htr], ?_, ?_, ?_, hns, hol⟩
  · simp [origFrags, keptFrags, List.filter_map, Frag.isOrig]
  · intro x hx
    apply hall
    simpa [synthTexts, List.filterMap_map] using hx
  · simp [pendL, hpend, hin]

/-- A string prefixed with `// ` starts with `// `. -/
theorem strStarts_append_self (pre l : String) :
    strStarts (pre ++ l) pre = true := by
  unfold strStarts
  rw [show (pre ++ l).toList = pre.toList ++ l.toList from String.data_append pre l]
  rw [List.isPrefixOf_iff_prefix]
  exact List.prefix_append _ _

/-- `handleEndif` only appends the close marker (or nothing) to the
output buffer. -/
theorem handleEndif_ext (l : String) (st : St) : StepExt st (handleEndif l st) := by
  unfold handleEndif
  by_cases hg : st.include_guard = true
  · rw [if_pos hg]
    rcases hna : ({ st with include_guard := false } : St).namespace_active with _ | t
    · exact StepExt.synths [] (by simp) (by simp) rfl rfl rfl rfl rfl
    · refine StepExt.synths [close_namespace st.ns] (by simp) ?_ rfl rfl rfl rfl rfl
      intro x hx
      simp at hx
      subst hx
      exact Or.inr (Or.inl rfl)
  · have hg' : st.include_guard = false := by simpa using hg
    rw [hg']
    simp only [Bool.false_eq_true, if_false]
    exact StepExt.synths [] (by simp) (by simp) rfl rfl rfl rfl rfl

/-- `handleCode` results are engine-step extensions of the input state
(for both continuations and the `namespace already present` return). -/
theorem handleCode_ext (l : String) (st : St) (includes : List String) :
    (∀ st2 inc2, handleCode l st includes = .cont st2 inc2 → StepExt st st2) ∧
    (∀ s st2, handleCode l st includes = .halt (.ret s st2) → StepExt st st2) := by
  unfold handleCode
  by_cases hns : containsSub l ("namespace " ++ st.ns) = true
  · rw [if_pos hns]
    constructor
    · intro st2 inc2 h
      exact absurd h (by simp)
    · intro s st2 h
      simp only [StepR.halt.injEq, Out.ret.injEq] at h
      obtain ⟨_, h2⟩ := h
      rw [← h2]
      exact StepExt.synths [] (by simp) (by simp) rfl rfl rfl rfl rfl
  · have hns' : containsSub l ("namespace " ++ st.ns) = false := by simpa using hns
    rw [hns']
    simp only [Bool.false_eq_true, if_false]
    rcases hcp : re_class_predec l with _ | cname
    · rcases hna : st.namespace_active with _ | t
      · constructor
        · intro st2 inc2 h
          simp only [StepR.cont.injEq] at h
          obtain ⟨h1, _⟩ := h
          rw [← h1]
          refine StepExt.synths [open_namespace st.ns] (by simp) ?_ rfl rfl rfl rfl rfl
          intro x hx
          simp at hx
          subst hx
          exact Or.inl rfl
        · intro s st2 h
          exact absurd h (by simp)
      · constructor
        · intro st2 inc2 h
          simp only [StepR.cont.injEq] at h
          obtain ⟨h1, _⟩ := h
          rw [← h1]
          exact StepExt.snil st
        · intro s st2 h
          exact absurd h (by simp)
    · rcases hna : st.namespace_active with _ | t
      · constructor
        · intro st2 inc2 h
          simp only [StepR.cont.injEq] at h
          obtain ⟨h1, _⟩ := h
          rw [← h1]
          refine StepExt.synths
            [open_namespace st.ns, l ++ "\n", close_namespace st.ns]
            (by simp) ?_ rfl rfl rfl rfl rfl
          intro x hx
          simp at hx
          rcases hx with hx | hx | hx
          · exact Or.inl hx
          · refine Or.inr (Or.inr (Or.inr ⟨l, by simp [hcp], hx⟩))
          · exact Or.inr (Or.inl hx)
        · intro s st2 h
          exact absurd h (by simp)
      · constructor
        · intro st2 inc2 h
          simp only [StepR.cont.injEq] at h
          obtain ⟨h1, _⟩ := h
          rw [← h1]
          exact StepExt.snil st
        · intro s st2 h
          exact absurd h (by simp)

/-- `handleInclude` continuations are engine-step extensions, and it
never returns a status. -/
theorem handleInclude_ext (l : String) (st : St) (includes : List String) :
    (∀ st2 inc2, handleInclude l st includes = .cont st2 inc2 → StepExt st st2) ∧
    (∀ s st2, handleInclude l st includes = .halt (.ret s st2) → StepExt st st2) := by
  rcases harg : re_include_arg l with _ | arg
  · have heq : handleInclude l st includes = .halt (.crash .attributeError st) := by
      simp [handleInclude, harg]
    rw [heq]
    exact ⟨fun st2 inc2 h => absurd h (by simp),
      fun s st2 h => absurd h (by simp)⟩
  · rcases hna : st.namespace_active with _ | t
    · have heq : handleInclude l st includes = .cont st
          (if includes.contains (pyStrip arg) then includes
           else includes ++ [pyStrip arg]) := by
        simp [handleInclude, harg, hna]
      rw [heq]
      refine ⟨?_, fun s st2 h => absurd h (by simp)⟩
      intro st2 inc2 h
      simp only [StepR.cont.injEq] at h
      obtain ⟨h1, _⟩ := h
      rw [← h1]
      exact StepExt.snil st
    · by_cases hdup : includes.contains (pyStrip arg) = true
      · have heq : handleInclude l st includes = .cont
            { st with
              msgs := st.msgs ++ [dupIncludeMsg l st.line_nr],
              drop_lines := st.drop_lines + 1,
              out_buf := st.out_buf ++
                [Frag.synth dupCommentLine, Frag.synth ("// " ++ l)] }
            includes := by
          have hdupm : pyStrip arg ∈ includes := by simpa using hdup
          simp [handleInclude, harg, hna, hdupm]
        rw [heq]
        refine ⟨?_, fun s st2 h => absurd h (by simp)⟩
        intro st2 inc2 h
        simp only [StepR.cont.injEq] at h
        obtain ⟨h1, _⟩ := h
        rw [← h1]
        refine StepExt.synths [dupCommentLine, "// " ++ l]
          (by simp) ?_ rfl rfl rfl rfl rfl
        intro x hx
        simp at hx
        rcases hx with hx | hx
        · subst hx
          refine Or.inr (Or.inr (Or.inl ?_))
          decide
        · subst hx
          exact Or.inr (Or.inr (Or.inl (strStarts_append_self "// " l)))
      · have hdup' : includes.contains (pyStrip arg) = false := by simpa using hdup
        by_cases hem : st.errorsMode = true
        · have heq : handleInclude l st includes = .cont
              { st with
                msgs := ((st.msgs ++ [afterCodeMsg l st.line_nr t]) ++
                  (if includes.isEmpty then [] else [seenIncludesMsg includes]))
                  ++ ["#include within namespace"],
                status := (match st.status with
                  | none => some "#include within namespace"
                  | some s => some s),
                out_buf := st.out_buf ++
                  [Frag.synth ("// " ++
                    pyStrip "#include within namespace" ++ "
")] }
              includes := by
            have hdupm : pyStrip arg ∉ includes := by simpa using hdup'
            simp [handleInclude, harg, hna, hdupm, errorStep, hem]
          rw [heq]
          refine ⟨?_, fun s st2 h => absurd h (by simp)⟩
          intro st2 inc2 h
          simp only [StepR.cont.injEq] at h
          obtain ⟨h1, _⟩ := h
          rw [← h1]
          refine StepExt.synths
            ["// " ++ pyStrip "#include within namespace" ++ "
"]
            (by simp) ?_ rfl rfl rfl rfl rfl
          intro x hx
          simp at hx
          subst hx
          refine Or.inr (Or.inr (Or.inl ?_))
          decide
        · have hem' : st.errorsMode = false := by simpa using hem
          have heq : handleInclude l st includes = .halt
              (.raised "#include within namespace"
                { st with
                  msgs := (st.msgs ++ [afterCodeMsg l st.line_nr t]) ++
                    (if includes.isEmpty then []
                     else [seenIncludesMsg includes]) }) := by
            have hdupm : pyStrip arg ∉ includes := by simpa using hdup'
            simp [handleInclude, harg, hna, hdupm, errorStep, hem']
          rw [heq]
          exact ⟨fun st2 inc2 h => absurd h (by simp),
            fun s st2 h => absurd h (by simp)⟩

/-- When `handleIfResult` continues, the new state extends the output
buffer by allowed synthetic fragments followed by the block's private
buffer, and touches no input-related field. -/
theorem handleIfResult_ext (firstIf : String) (firstNr : Int)
    (incl code : Option CTup) (tmp : List Frag) (st1 st2' : St)
    (h : handleIfResult firstIf firstNr incl code tmp st1 = .inl (some st2')) :
    ∃ syn : List String,
      st2'.out_buf = st1.out_buf ++ (syn.map Frag.synth) ++ tmp ∧
      (∀ x ∈ syn, AllowedSynth st1.ns x) ∧
      st2'.trace = st1.trace ∧ st2'.pending = st1.pending ∧
      st2'.input = st1.input ∧ st2'.ns = st1.ns ∧
      st2'.origLines = st1.origLines := by
  rcases incl with _ | it <;> rcases code with _ | ct
  · have heq : handleIfResult firstIf firstNr none none tmp st1 =
        .inl (some { st1 with out_buf := st1.out_buf ++ tmp }) := by
      simp [handleIfResult]
    rw [heq] at h
    simp only [Sum.inl.injEq, Option.some.injEq] at h
    rw [← h]
    exact ⟨[], by simp, by simp, rfl, rfl, rfl, rfl, rfl⟩
  · rcases hna : st1.namespace_active with _ | t
    · have heq : handleIfResult firstIf firstNr none (some ct) tmp st1 =
          .inl (some
            { st1 with
              msgs := st1.msgs ++ [insertBeforeIfMsg firstIf firstNr ct],
              out_buf := st1.out_buf ++ [Frag.synth (open_namespace st1.ns)] ++ tmp,
              namespace_active := some (firstIf, firstNr) }) := by
        simp [handleIfResult, hna]
      rw [heq] at h
      simp only [Sum.inl.injEq, Option.some.injEq] at h
      rw [← h]
      refine ⟨[open_namespace st1.ns], by simp, ?_, rfl, rfl, rfl, rfl, rfl⟩
      intro x hx
      simp at hx
      subst hx
      exact Or.inl rfl
    · have heq : handleIfResult firstIf firstNr none (some ct) tmp st1 =
          .inl (some { st1 with out_buf := st1.out_buf ++ tmp }) := by
        simp [handleIfResult, hna]
      rw [heq] at h
      simp only [Sum.inl.injEq, Option.some.injEq] at h
      rw [← h]
      exact ⟨[], by simp, by simp, rfl, rfl, rfl, rfl, rfl⟩
  · rcases hna : st1.namespace_active with _ | t
    · have heq : handleIfResult firstIf firstNr (some it) none tmp st1 =
          .inl (some { st1 with out_buf := st1.out_buf ++ tmp }) := by
        simp [handleIfResult, hna]
      rw [heq] at h
      simp only [Sum.inl.injEq, Option.some.injEq] at h
      rw [← h]
      exact ⟨[], by simp, by simp, rfl, rfl, rfl, rfl, rfl⟩
    · by_cases hem : st1.errorsMode = true
      · have heq : handleIfResult firstIf firstNr (some it) none tmp st1 =
            .inl (some
              { st1 with
                msgs := (st1.msgs ++ [inclInIfMsg it firstIf firstNr t]) ++
                  ["include within #if within namespace"],
                status := (match st1.status with
                  | none => some "include within #if within namespace"
                  | some s => some s),
                out_buf := (st1.out_buf ++
                  [Frag.synth ("// " ++
                    pyStrip "include within #if within namespace" ++ "\n")])
                  ++ tmp }) := by
          simp [handleIfResult, hna, errorStep, hem]
        rw [heq] at h
        simp only [Sum.inl.injEq, Option.some.injEq] at h
        rw [← h]
        refine ⟨["// " ++ pyStrip "include within #if within namespace" ++ "\n"],
          by simp, ?_, rfl, rfl, rfl, rfl, rfl⟩
        intro x hx
        simp at hx
        subst hx
        refine Or.inr (Or.inr (Or.inl ?_))
        decide
      · have hem' : st1.errorsMode = false := by simpa using hem
        have heq : handleIfResult firstIf firstNr (some it) none tmp st1 =
            .inr ("include within #if within namespace",
              { st1 with msgs := st1.msgs ++ [inclInIfMsg it firstIf firstNr t] }) := by
          simp [handleIfResult, hna, errorStep, hem']
        rw [heq] at h
        exact absurd h (by simp)
  · by_cases hem : st1.errorsMode = true
    · have heq : handleIfResult firstIf firstNr (some it) (some ct) tmp st1 =
          .inl (some
            { st1 with
              msgs := (st1.msgs ++ [mixedMsg firstIf firstNr it ct]) ++
                [("mixed #if" ++
                  (if st1.namespace_active.isSome then " within namespace" else ""))],
              status := (match st1.status with
                | none => some ("mixed #if" ++
                    (if st1.namespace_active.isSome then " within namespace" else ""))
                | some s => some s),
              out_buf := (st1.out_buf ++
                [Frag.synth ("// " ++
                  pyStrip ("mixed #if" ++
                    (if st1.namespace_active.isSome then " within namespace" else ""))
                  ++ "\n")]) ++ tmp }) := by
        simp [handleIfResult, errorStep, hem]
      rw [heq] at h
      simp only [Sum.inl.injEq, Option.some.injEq] at h
      rw [← h]
      refine ⟨["// " ++
        pyStrip ("mixed #if" ++
          (if st1.namespace_active.isSome then " within namespace" else ""))
        ++ "\n"], by simp, ?_, rfl, rfl, rfl, rfl, rfl⟩
      intro x hx
      simp at hx
      subst hx
      exact Or.inr (Or.inr (Or.inl (strStarts_append_self "// " _)))
    · have hem' : st1.errorsMode = false := by simpa using hem
      have heq : handleIfResult firstIf firstNr (some it) (some ct) tmp st1 =
          .inr ("mixed #if" ++
              (if st1.namespace_active.isSome then " within namespace" else ""),
            { st1 with msgs := st1.msgs ++ [mixedMsg firstIf firstNr it ct] }) := by
        simp [handleIfResult, errorStep, hem']
      rw [heq] at h
      exact absurd h (by simp)

/-- The `consume_if` loop only halts with crashes or fuel exhaustion,
never with a returned status. -/
theorem consumeGo_halt_kind :
    ∀ (fuel : Nat) (l : String) (st : St) (incl code : Option CTup)
      (stmts : List String) (o : Out),
      consumeGo fuel l st incl code stmts = .halt o →
      ∀ (s : String) (stx : St), o ≠ .ret s stx := by
  intro fuel
  induction fuel with
  | zero =>
      intro l st incl code stmts o h s stx
      simp only [consumeGo, CIRes.halt.injEq] at h
      rw [← h]
      simp
  | succ f ih =>
      intro l st incl code stmts o h s stx
      unfold consumeGo at h
      by_cases hd : st.nesting_depth > 0
      · rw [if_pos hd] at h
        rcases hres : code_lines (f + 1)
            { st with nesting_depth :=
                (classifyStmt l st.line_nr st.nesting_depth incl code).1 } with
            ⟨lopt2, st2⟩ | ⟨k, st2⟩ | st2 <;> rw [hres] at h <;>
          try simp only at h
        · rcases lopt2 with _ | l2
          · exact absurd h (by simp)
          · exact ih l2 st2 _ _ _ o h s stx
        · simp only [CIRes.halt.injEq] at h
          rw [← h]
          simp
        · simp only [CIRes.halt.injEq] at h
          rw [← h]
          simp
      · rw [if_neg hd] at h
        exact absurd h (by simp)

/-- `consume_if` only halts with crashes or fuel exhaustion. -/
theorem consume_if_halt_kind (fuel : Nat) (st : St) (o : Out)
    (h : consume_if fuel st = .halt o) :
    ∀ (s : String) (stx : St), o ≠ .ret s stx := by
  unfold consume_if at h
  split at h
  case h_1 =>
    rename_i x1 l0 st1 hres
    split at h
    case h_1 => simp at h
    case h_2 =>
      rename_i o2 hgo
      simp only [CIRes.halt.injEq] at h
      rw [← h]
      exact consumeGo_halt_kind _ _ _ _ _ _ _ hgo
  case h_2 =>
    rename_i st1 hres
    simp only [CIRes.halt.injEq] at h
    rw [← h]
    intro s stx
    simp
  case h_3 =>
    rename_i k st1 hres
    simp only [CIRes.halt.injEq] at h
    rw [← h]
    intro s stx
    simp
  case h_4 =>
    rename_i st1 hres
    simp only [CIRes.halt.injEq] at h
    rw [← h]
    intro s stx
    simp

/-- `origFrags` of purely synthetic fragments is empty. -/
theorem origFrags_map_synth (ss : List String) :
    origFrags (ss.map Frag.synth) = [] := by
  simp [origFrags, List.filter_map, Frag.isOrig]

/-- Every continuation or returned status of one engine loop iteration
is an engine-step extension of the state before it. -/
theorem stepLine_ext :
    ∀ (fuel : Nat) (l : String) (st : St) (includes : List String),
      (∀ st2 inc2, stepLine fuel l st includes = .cont st2 inc2 → StepExt st st2) ∧
      (∀ s st2, stepLine fuel l st includes = .halt (.ret s st2) → StepExt st st2) := by
  intro fuel
  induction fuel with
  | zero =>
      intro l st includes
      exact ⟨fun st2 inc2 h => absurd h (by simp [stepLine]),
        fun s st2 h => absurd h (by simp [stepLine])⟩
  | succ f ih =>
      intro l st includes
      by_cases hif : re_if l = true
      · rcases hci : consume_if (f + 1) st with ⟨lopt, incl, code, tmp, stmts, st1⟩ | o
        · rcases hhir : handleIfResult l st.line_nr incl code tmp st1 with st2opt | ⟨msg, st2x⟩
          · rcases st2opt with _ | st2'
            · have heq : stepLine (f + 1) l st includes = .halt (.fuelOut st1) := by
                simp [stepLine, hif, hci, hhir]
              exact ⟨fun st2 inc2 h => absurd (heq ▸ h) (by simp),
                fun s st2 h => absurd (heq ▸ h) (by simp)⟩
            · obtain ⟨tr, htr, htmp, hlines, hbuf, hna, hstat, hnseq, hemeq,
                holeq, hhead, hfirst⟩ :=
                consume_if_ext (f + 1) st lopt incl code tmp stmts st1 hci
              obtain ⟨syn, hsbuf, hsall, hstr, hspend, hsin, hsns, hsol⟩ :=
                handleIfResult_ext l st.line_nr incl code tmp st1 st2' hhir
              have hbase : StepExt st st2' := by
                refine ⟨syn.map Frag.synth ++ tmp, tr, ?_, ?_, ?_, ?_, ?_, ?_, ?_⟩
                · rw [hsbuf, hbuf, List.append_assoc]
                · rw [hstr, htr]
                · rw [origFrags_append, origFrags_map_synth, htmp,
                    origFrags_keptFrags]
                  simp
                · intro x hx
                  rw [synthTexts_append] at hx
                  rcases List.mem_append.mp hx with hx | hx
                  · have hx2 : x ∈ syn := by
                      simpa [synthTexts, List.filterMap_map] using hx
                    have := hsall x hx2
                    rwa [hnseq] at this
                  · rw [htmp, synthTexts_keptFrags] at hx
                    exact absurd hx (by simp)
                · rw [show pendL st2' = pendL st1 from by simp [pendL, hspend],
                    hsin]
                  exact hlines
                · rw [hsns, hnseq]
                · rw [hsol, holeq]
              rcases lopt with _ | l2
              · have heq : stepLine (f + 1) l st includes = .cont st2' includes := by
                  simp [stepLine, hif, hci, hhir]
                refine ⟨?_, fun s st2 h => absurd (heq ▸ h) (by simp)⟩
                intro st2 inc2 h
                rw [heq] at h
                simp only [StepR.cont.injEq] at h
                obtain ⟨h1, _⟩ := h
                rw [← h1]
                exact hbase
              · have heq : stepLine (f + 1) l st includes =
                    stepLine f l2 st2' includes := by
                  simp [stepLine, hif, hci, hhir]
                constructor
                · intro st2 inc2 h
                  rw [heq] at h
                  exact hbase.scomp ((ih l2 st2' includes).1 st2 inc2 h)
                · intro s st2 h
                  rw [heq] at h
                  exact hbase.scomp ((ih l2 st2' includes).2 s st2 h)
          · have heq : stepLine (f + 1) l st includes =
                .halt (.raised msg st2x) := by
              simp [stepLine, hif, hci, hhir]
            exact ⟨fun st2 inc2 h => absurd (heq ▸ h) (by simp),
              fun s st2 h => absurd (heq ▸ h) (by simp)⟩
        · have heq : stepLine (f + 1) l st includes = .halt o := by
            simp [stepLine, hif, hci]
          refine ⟨fun st2 inc2 h => absurd (heq ▸ h) (by simp), ?_⟩
          intro s st2 h
          rw [heq] at h
          simp only [StepR.halt.injEq] at h
          exact absurd h (consume_if_halt_kind (f + 1) st o hci s st2)
      · have hif' : re_if l = false := by simpa using hif
        by_cases hend : re_endif l = true
        · have heq : stepLine (f + 1) l st includes =
              .cont (handleEndif l st) includes := by
            simp [stepLine, hif', hend]
          refine ⟨?_, fun s st2 h => absurd (heq ▸ h) (by simp)⟩
          intro st2 inc2 h
          rw [heq] at h
          simp only [StepR.cont.injEq] at h
          obtain ⟨h1, _⟩ := h
          rw [← h1]
          exact handleEndif_ext l st
        · have hend' : re_endif l = false := by simpa using hend
          by_cases hinc : re_include l = true
          · have heq : stepLine (f + 1) l st includes =
                handleInclude l st includes := by
              simp [stepLine, hif', hend', hinc]
            rw [heq]
            exact handleInclude_ext l st includes
          · have hinc' : re_include l = false := by simpa using hinc
            have heq : stepLine (f + 1) l st includes =
                handleCode l st includes := by
              simp [stepLine, hif', hend', hinc']
            rw [heq]
            exact handleCode_ext l st includes

/-- The end-of-processing step only appends the close marker (or
nothing). -/
theorem finishProcess_ext (st : St) (s : String) (fin : St)
    (h : finishProcess st = .ret s fin) : StepExt st fin := by
  unfold finishProcess at h
  rcases hna : st.namespace_active with _ | t <;> rw [hna] at h <;>
    simp only at h
  · rcases hst : st.status with _ | s0 <;> rw [hst] at h <;> simp only at h
    · by_cases hemp : st.out_buf.map Frag.text = st.origLines
      · rw [if_pos hemp] at h
        simp only [Out.ret.injEq] at h
        rw [← h.2]
        exact StepExt.snil st
      · rw [if_neg hemp] at h
        simp only [Out.ret.injEq] at h
        rw [← h.2]
        exact StepExt.snil st
    · simp only [Out.ret.injEq] at h
      rw [← h.2]
      exact StepExt.snil st
  · have hclose : StepExt st
        { st with
          msgs := st.msgs ++ [closeAtEndMsg st.line_nr st.full_line],
          out_buf := st.out_buf ++ [Frag.synth (close_namespace st.ns)] } := by
      refine StepExt.synths [close_namespace st.ns] (by simp) ?_ rfl rfl rfl rfl rfl
      intro x hx
      simp at hx
      subst hx
      exact Or.inr (Or.inl rfl)
    rcases hst : st.status with _ | s0 <;> rw [hst] at h <;> simp only at h
    · by_cases hemp : (st.out_buf ++ [Frag.synth (close_namespace st.ns)]).map
          Frag.text = st.origLines
      · rw [if_pos hemp] at h
        simp only [Out.ret.injEq] at h
        rw [← h.2]
        exact hclose
      · rw [if_neg hemp] at h
        simp only [Out.ret.injEq] at h
        rw [← h.2]
        exact hclose
    · simp only [Out.ret.injEq] at h
      rw [← h.2]
      exact hclose

/-- Any status returned by the engine loop comes from a state extending
the entry state by kept original lines and allowed synthetic
fragments. -/
theorem procLoop_ext :
    ∀ (fuel : Nat) (st : St) (includes : List String) (s : String) (fin : St),
      procLoop fuel st includes = .ret s fin → StepExt st fin := by
  intro fuel
  induction fuel with
  | zero =>
      intro st includes s fin h
      exact absurd h (by simp [procLoop])
  | succ f ih =>
      intro st includes s fin h
      obtain ⟨trP, hP⟩ := code_lines_ext (f + 1) st
      rcases hres : code_lines (f + 1) st with ⟨lopt, st'⟩ | ⟨k, st'⟩ | st' <;>
        rw [hres] at hP <;> simp only [PRes.stOf] at hP
      · have hpull : StepExt st st' := StepExt.ofPull hP
        rcases lopt with _ | l
        · have heq : procLoop (f + 1) st includes = finishProcess st' := by
            simp [procLoop, hres]
          rw [heq] at h
          exact hpull.scomp (finishProcess_ext st' s fin h)
        · rcases hsl : stepLine (f + 1) l st' includes with ⟨st2, inc2⟩ | o
          · have heq : procLoop (f + 1) st includes = procLoop f st2 inc2 := by
              simp [procLoop, hres, hsl]
            rw [heq] at h
            exact (hpull.scomp ((stepLine_ext (f + 1) l st' includes).1 st2
              inc2 hsl)).scomp (ih st2 inc2 s fin h)
          · have heq : procLoop (f + 1) st includes = o := by
              simp [procLoop, hres, hsl]
            rw [heq] at h
            rw [h] at hsl
            exact hpull.scomp ((stepLine_ext (f + 1) l st' includes).2 s fin hsl)
      · exact absurd h (by simp [procLoop, hres])
      · exact absurd h (by simp [procLoop, hres])

/-- C1 as stated: at end of processing the output buffer consists of the
kept input lines, unaltered and in order (the consumed-line trace
accounts for every input line as kept or explicitly dropped), plus
synthetic fragments that are only namespace markers or diagnostic
comments. -/
def ClaimC1Stated : Prop :=
  ∀ (lines : List String) (ns : String) (em : Bool) (s : String) (fin : St),
    process lines ns em = .ret s fin →
    lines = fin.trace.map Prod.snd ++ pendL fin ++ fin.input ∧
    origFrags fin.out_buf = keptFrags fin.trace ∧
    (∀ x ∈ synthTexts fin.out_buf, AllowedSynthStated ns x)

/-- C1 (amended): as stated, but the engine may additionally insert the
trimmed re-emitted copy of a forward class declaration (the raw line is
dropped and replaced, so e.g. indentation is lost). -/
theorem claim_C1 :
    ∀ (lines : List String) (ns : String) (em : Bool) (s : String) (fin : St),
      process lines ns em = .ret s fin →
      lines = fin.trace.map Prod.snd ++ pendL fin ++ fin.input ∧
      origFrags fin.out_buf = keptFrags fin.trace ∧
      (∀ x ∈ synthTexts fin.out_buf, AllowedSynth ns x) := by
  intro lines ns em s fin h
  obtain ⟨delta, tr, hbuf, htr, horig, hsyn, hlines, hns, hol⟩ :=
    procLoop_ext (4 * lines.length + 64) (initSt lines ns em) [] s fin h
  have hbuf' : fin.out_buf = delta := by simpa [initSt] using hbuf
  have htr' : fin.trace = tr := by simpa [initSt] using htr
  refine ⟨?_, ?_, ?_⟩
  · rw [htr']
    have := hlines
    simp only [initSt, pendL] at this
    simpa using this.symm
  · rw [hbuf', htr', horig]
  · intro x hx
    rw [hbuf'] at hx
    have := hsyn x hx
    simpa [initSt] using this

/-- Counterexample to C1 as stated: on a file holding one indented
forward class declaration, the engine inserts the trimmed copy
`class W;\n` — a synthetic fragment that is neither a namespace marker
nor a `// ` comment (and the original indented line is gone from the
output). -/
theorem claim_C1_cex : ¬ ClaimC1Stated := by
  intro h
  have h2 := h [" class W;\n"] "ns" false "success"
    (process [" class W;\n"] "ns" false).state (by rfl)
  have h3 := h2.2.2 "class W;\n" (by decide)
  unfold AllowedSynthStated at h3
  revert h3
  decide

/-- Witness for `claim_C1`: the amended invariant evaluated on the
concrete one-line file `int x;`. -/
theorem claim_C1_witness :
    (["int x;\n"] : List String) =
      ((process ["int x;\n"] "ns" false).state.trace.map Prod.snd) ++
        pendL (process ["int x;\n"] "ns" false).state ++
        (process ["int x;\n"] "ns" false).state.input ∧
    origFrags (process ["int x;\n"] "ns" false).state.out_buf =
      keptFrags (process ["int x;\n"] "ns" false).state.trace ∧
    (∀ x ∈ synthTexts (process ["int x;\n"] "ns" false).state.out_buf,
      AllowedSynth "ns" x) :=
  claim_C1 ["int x;\n"] "ns" false "success"
    (process ["int x;\n"] "ns" false).state (by rfl)
